import Mathlib

/-!
# safe_input: a verification development

A shallow embedding of `src/safe_input.c` (the functions `filter` and
`safe_input`) together with theorems about it.

Modelling conventions.

* Bytes are values of `Char`; the byte 0 is `NUL`.  A character array holds
  the NUL byte as the cell value `Cell.END_OF_STRING`: a byte read from the
  stream is stored through `Cell.of_char`, so the string in an array ends at
  the first NUL byte that was stored.  A text (the `List Char` that `filter`
  and `sscanf` work on) is a string without its terminator.
* Memory obtained from `malloc` is a list of cells, each of them `unwritten`
  until the program stores into it.  Reading an unwritten cell, or storing
  outside the allocated cells, is undefined behaviour (`none`).
* The target has a 32-bit `int`, a 16-bit `short` and a 64-bit `long`.  The
  counters of `filter` are of type `int`: a text longer than `INT_MAX` makes
  them overflow, which is undefined behaviour.  The size `bufsize + 1` reaches
  `fgets` converted to `int` (`to_int`), and `sscanf` stores a numeral converted
  to the type of the object, in both cases as the GNU C library does.
* The outcome of each allocation is an input of the model (`Heap`).
* The standard input is the list of characters that the stream delivers to the
  call; once the list is empty every read reports end of file.
-/

namespace SafeInput

/-! ## Memory -/

/-- One cell of a character array. -/
inductive Cell where
  | unwritten
  | chr (c : Char)
  | END_OF_STRING
  deriving DecidableEq, Repr

/-- A character array. -/
abbrev Mem := List Cell

/-- What the program does to the outside world, in order. -/
inductive Event where
  | printf (text : String)
  | fgets (got : Option (List Char))
  deriving DecidableEq, Repr

/-- The NUL byte, the value of the macro `END_OF_STRING`. -/
def NUL : Char := Char.ofNat 0

/-- The cell that a stored byte fills: the NUL byte is the terminator. -/
def Cell.of_char (c : Char) : Cell := if c = NUL then Cell.END_OF_STRING else Cell.chr c

/-- The bytes before the first NUL byte: the string that a sequence of bytes
stored in an array makes. -/
def until_nul (t : List Char) : List Char := t.takeWhile (fun c => c != NUL)

/-- A fresh array of `n` cells, as `malloc(sizeof(char) * n)` returns it. -/
def malloc (n : Nat) : Mem := List.replicate n Cell.unwritten

/-- The assignment `*(m + i) = v`; `none` when `i` is outside the array. -/
def store (m : Mem) (i : Nat) (v : Cell) : Option Mem :=
  if i < m.length then some (m.set i v) else none

/-- The C string that starts at the first cell: the characters before the first
terminator.  `none` when an unwritten cell or the end of the array comes
first. -/
def cstr : Mem → Option (List Char)
  | [] => none
  | Cell.unwritten :: _ => none
  | Cell.END_OF_STRING :: _ => some []
  | Cell.chr c :: m => (cstr m).map (fun t => c :: t)

/-- The library call `strlen`. -/
def strlen (m : Mem) : Option Nat := (cstr m).map List.length

/-- The call `memcpy(dst, src, n)`: the first `n` cells of `src` replace those of `dst`. -/
def memcpy (dst src : Mem) (n : Nat) : Option Mem :=
  if n ≤ dst.length ∧ n ≤ src.length then some (src.take n ++ dst.drop n) else none

/-! ## filter -/

/-- First loop of `filter` (lines 214-221): `len` is decremented once for each
character equal to `remove`; the recursion over the text is the index `i`. -/
def count_pass (remove : Char) : List Char → Int → Int
  | [], len => len
  | c :: s, len => count_pass remove s (if c = remove then len - 1 else len)

/-- Second loop of `filter` (lines 228-236): every character different from
`remove` is stored at index `j`, which is then incremented.  Returns the final
`j` and the array. -/
def copy_pass (remove : Char) : List Char → Nat → Mem → Option (Nat × Mem)
  | [], j, filtered => some (j, filtered)
  | c :: s, j, filtered =>
    if c ≠ remove then
      match store filtered j (Cell.chr c) with
      | none => none
      | some filtered1 => copy_pass remove s (j + 1) filtered1
    else copy_pass remove s j filtered

/-- What a call of `filter` leaves behind: the returned pointer (`none` is
`NULL`) and what it printed. -/
structure FilterOut where
  filtered : Option Mem
  stdout : List Event
  deriving DecidableEq, Repr

/-- The function `filter` (lines 201-247).  `int_max` is the constant `INT_MAX`
of the target, `alloc` is the outcome of its `malloc`, and `str` is the text
of the string at the argument pointer (`none` for `NULL`).  For a text of more
than `INT_MAX` characters `len = strlen(str)` is out of the range of `int` and
`i++` overflows before the first loop ends: the behaviour is undefined
(`none`). -/
def filter (int_max : Nat) (alloc : Bool) (str : Option (List Char)) (remove : Char) :
    Option FilterOut :=
  match str with
  | none => some ⟨none, []⟩
  | some s =>
    if int_max < s.length then none
    else
      let len : Int := count_pass remove s (s.length : Int)
      if alloc then
        match copy_pass remove s 0 (malloc (len + 1).toNat) with
        | none => none
        | some (_, filtered) =>
          if len < 0 then none
          else
            match store filtered len.toNat Cell.END_OF_STRING with
            | none => none
            | some filtered1 => some ⟨some filtered1, []⟩
      else
        some ⟨none, [Event.printf "[filter()] ERROR: Memory allocation was unsuccessful\n"]⟩

/-- The text of a character array that holds `t` followed by the terminator. -/
def terminated (t : List Char) : Mem := t.map Cell.chr ++ [Cell.END_OF_STRING]

/-! ## The C library calls of safe_input -/

/-- What `fgets` takes from the stream when it may read at most `n` characters:
the characters up to and including the first newline, or `n` characters, or
all that is left, whichever comes first; and what stays in the stream. -/
def fgets_take : Nat → List Char → List Char × List Char
  | 0, s => ([], s)
  | _ + 1, [] => ([], [])
  | n + 1, c :: s =>
    if c = '\n' then ([c], s)
    else (c :: (fgets_take n s).1, (fgets_take n s).2)

/-- The state after a call of `fgets`: what was read (`none` when it returned
`NULL`), the array and the stream. -/
structure Fgets where
  got : Option (List Char)
  buf : Mem
  stdin : List Char
  deriving DecidableEq, Repr

/-- The constant `INT_MAX` of the target. -/
def INT_MAX : Nat := 2147483647

/-- The value of the two's complement integer type with values from `-half` to
`half - 1` that is congruent to `v`. -/
def wrap_signed (half : Int) (v : Int) : Int := (v + half) % (2 * half) - half

/-- The conversion of an `unsigned long` to `int`, which the call of `fgets`
applies to its second argument. -/
def to_int (v : Nat) : Int :=
  if v % 4294967296 < 2147483648 then ((v % 4294967296 : Nat) : Int)
  else ((v % 4294967296 : Nat) : Int) - 4294967296

/-- The call `fgets(buf, n, stdin)`, `n` being an `int`.  With `n <= 0` it
returns `NULL` at once; with `n = 1` it stores the terminator, reads nothing
and returns `buf`.  Otherwise, at end of file nothing is read, the array is
left as it was and `NULL` is returned; else at most `n - 1` bytes are stored at
the start of the array, followed by the terminator. -/
def fgets (buf : Mem) (n : Int) (stdin : List Char) : Option Fgets :=
  if n ≤ 0 then some ⟨none, buf, stdin⟩
  else if n = 1 then
    match store buf 0 Cell.END_OF_STRING with
    | none => none
    | some buf1 => some ⟨some [], buf1, stdin⟩
  else
    match stdin with
    | [] => some ⟨none, buf, []⟩
    | c :: s =>
      let r := fgets_take (n - 1).toNat (c :: s)
      match memcpy buf (r.1.map Cell.of_char ++ [Cell.END_OF_STRING]) (r.1.length + 1) with
      | none => none
      | some buf1 => some ⟨some r.1, buf1, r.2⟩

/-- A value stored by a conversion of `sscanf`.  For `integer` it is the value
that the object holds, a value of its type; for `floating` it is the object
representation that the C library computed. -/
inductive Value where
  | integer (v : Int)
  | floating (bits : Nat)
  | character (c : Char)
  deriving DecidableEq, Repr

/-- The C library's conversion of floating-point text (`%f`, `%lf`), which is
not modelled: given the format and the text, the object representation of the
converted value when a conversion takes place. -/
abbrev FloatScan := String → List Char → Option Nat

/-- The library predicate `isspace` in the C locale. -/
def isspace (c : Char) : Bool :=
  c = ' ' || c = '\t' || c = '\n' || c = '\r' || c = Char.ofNat 11 || c = Char.ofNat 12

/-- The value of a sequence of decimal digits. -/
def digits_value (ds : List Char) : Nat :=
  ds.foldl (fun v d => 10 * v + (d.toNat - 48)) 0

/-- The numeral that an integer conversion of `sscanf` (`%hd`, `%hu`, `%d`,
`%u`, `%ld`, `%lu`) reads: white space is skipped, then an optional sign and
the longest run of decimal digits are read.  `none` when the text ends before
the numeral or when there is no digit.  The result is the value of the
numeral, which `sscanf` converts to the type of the object. -/
def scan_integer (text : List Char) : Option Int :=
  match text.dropWhile isspace with
  | [] => none
  | c :: rest =>
    let body := if c = '-' ∨ c = '+' then rest else c :: rest
    let ds := body.takeWhile Char.isDigit
    if ds = [] then none
    else some (if c = '-' then -(digits_value ds : Int) else (digits_value ds : Int))

/-- The `long` that the library computes for a signed numeral, as `strtol`
does: a numeral outside the range of `long` gives `LONG_MIN` or `LONG_MAX`. -/
def strtol (v : Int) : Int :=
  if v < -9223372036854775808 then -9223372036854775808
  else if 9223372036854775807 < v then 9223372036854775807
  else v

/-- The `unsigned long` that the library computes for a numeral read by an
unsigned conversion, as `strtoul` does: a magnitude above `ULONG_MAX` gives
`ULONG_MAX`, and a numeral with a minus sign is negated in `unsigned long`. -/
def strtoul (v : Int) : Int :=
  if 18446744073709551615 < v.natAbs then 18446744073709551615
  else v % 18446744073709551616

/-- The call `sscanf(buf, format, result)` for the formats that `safe_input`
passes to it, `text` being the string in `buf`: `some v` when the call returns
1 and stores `v`, `none` when it returns anything else and stores nothing.
An integer conversion stores the `long` or `unsigned long` of the numeral
converted to the type of the object (`short`, `int`, `long` and their unsigned
types).  `%c` takes the first character without skipping white space. -/
def sscanf (fp : FloatScan) (text : List Char) (format : String) : Option Value :=
  if format = "%hd" then
    (scan_integer text).map (fun v => Value.integer (wrap_signed 32768 (strtol v)))
  else if format = "%hu" then
    (scan_integer text).map (fun v => Value.integer (strtoul v % 65536))
  else if format = "%d" then
    (scan_integer text).map (fun v => Value.integer (wrap_signed 2147483648 (strtol v)))
  else if format = "%u" then
    (scan_integer text).map (fun v => Value.integer (strtoul v % 4294967296))
  else if format = "%ld" then
    (scan_integer text).map (fun v => Value.integer (strtol v))
  else if format = "%lu" then
    (scan_integer text).map (fun v => Value.integer (strtoul v))
  else if format = "%f" ∨ format = "%lf" then
    (fp format text).map Value.floating
  else if format = "%c" then
    text.head?.map Value.character
  else none

/-! ## safe_input -/

/-- The enumeration `type_t`; a selector is the integer value of the argument. -/
def SHORT_INT : Int := 0
/-- Enumerator 1 of `type_t`. -/
def U_SHORT_INT : Int := 1
/-- Enumerator 2 of `type_t`. -/
def INT : Int := 2
/-- Enumerator 3 of `type_t`. -/
def U_INT : Int := 3
/-- Enumerator 4 of `type_t`. -/
def LONG_INT : Int := 4
/-- Enumerator 5 of `type_t`. -/
def U_LONG_INT : Int := 5
/-- Enumerator 6 of `type_t`. -/
def FLOAT : Int := 6
/-- Enumerator 7 of `type_t`. -/
def DOUBLE : Int := 7
/-- Enumerator 8 of `type_t`. -/
def CHAR : Int := 8
/-- Enumerator 9 of `type_t`. -/
def STRING : Int := 9

/-- The macro `STRING_EMPTY_PLACEHOLDER`. -/
def STRING_EMPTY_PLACEHOLDER : String := " "

/-- The macro `NEWLINE_CHAR`. -/
def NEWLINE_CHAR : Char := '\n'

/-- The native types of the result objects. -/
inductive CType where
  | short_int | unsigned_short_int | int | unsigned_int | long_int
  | unsigned_long_int | float | double | char
  deriving DecidableEq, Repr

/-- The argument of the `malloc` of the result: `sizeof` of a native type, or
`sizeof(char) * n`. -/
inductive Request where
  | object (t : CType)
  | array (n : Nat)
  deriving DecidableEq, Repr

/-- What `result` points to: one object of a native type (`none` until a value
is stored), or a character array. -/
inductive Slot where
  | object (t : CType) (v : Option Value)
  | array (cells : Mem)
  deriving DecidableEq, Repr

/-- The memory a successful `malloc` returns for a request. -/
def Request.fresh : Request → Slot
  | Request.object t => Slot.object t none
  | Request.array n => Slot.array (malloc n)

/-- The outcomes of the three allocations: of the result, of the working
buffer, and of the array inside `filter`. -/
structure Heap where
  result : Bool
  buf : Bool
  filtered : Bool
  deriving DecidableEq, Repr

/-- Every allocation succeeds. -/
def Heap.ok : Heap := ⟨true, true, true⟩

/-- The `switch` of lines 84-128: the format and the allocation requested for
the result (`none` in the default case, where `result = NULL`). -/
def select (type_selector : Int) (bufsize : Nat) : String × Option Request :=
  if type_selector = SHORT_INT then ("%hd", some (Request.object CType.short_int))
  else if type_selector = U_SHORT_INT then ("%hu", some (Request.object CType.unsigned_short_int))
  else if type_selector = INT then ("%d", some (Request.object CType.int))
  else if type_selector = U_INT then ("%u", some (Request.object CType.unsigned_int))
  else if type_selector = LONG_INT then ("%ld", some (Request.object CType.long_int))
  else if type_selector = U_LONG_INT then ("%lu", some (Request.object CType.unsigned_long_int))
  else if type_selector = FLOAT then ("%f", some (Request.object CType.float))
  else if type_selector = DOUBLE then ("%lf", some (Request.object CType.double))
  else if type_selector = CHAR then ("%c", some (Request.object CType.char))
  else if type_selector = STRING then ("%s", some (Request.array (bufsize + 1)))
  else (STRING_EMPTY_PLACEHOLDER, none)

/-- The state of the retry loop. -/
structure Loop where
  stdin : List Char
  trace : List Event
  buf : Mem
  result : Slot
  acquired_input : Bool
  deriving DecidableEq, Repr

/-- The store of a converted value through `result`. -/
def Slot.assign : Slot → Value → Slot
  | Slot.object t _, v => Slot.object t (some v)
  | Slot.array cells, _ => Slot.array cells

/-- The prompt of lines 139-142. -/
def prompt (message : Option String) : List Event :=
  match message with
  | some m => [Event.printf m]
  | none => []

/-- One pass through the body of the `do ... while` (lines 138-166); `none` is
undefined behaviour. -/
def body (fp : FloatScan) (heap : Heap) (type_selector : Int) (bufsize : Nat)
    (message : Option String) (format : String) (s : Loop) : Option Loop :=
  match fgets s.buf (to_int (bufsize + 1)) s.stdin with
  | none => none
  | some ⟨none, buf1, stdin1⟩ =>
    some { s with stdin := stdin1, buf := buf1,
                  trace := s.trace ++ prompt message ++ [Event.fgets none] }
  | some ⟨some got, buf1, stdin1⟩ =>
    let trace1 := s.trace ++ prompt message ++ [Event.fgets (some got)]
    if type_selector ≠ STRING then
      match cstr buf1 with
      | none => none
      | some text =>
        match sscanf fp text format with
        | some v =>
          some ⟨stdin1, trace1, buf1, s.result.assign v, true⟩
        | none => some ⟨stdin1, trace1, buf1, s.result, s.acquired_input⟩
    else
      match cstr buf1 with
      | none => none
      | some text =>
        match filter INT_MAX heap.filtered (some text) NEWLINE_CHAR with
        | none => none
        | some ⟨none, _⟩ => none
        | some ⟨some filtered_buf, out⟩ =>
          match strlen filtered_buf, s.result with
          | some n, Slot.array cells =>
            match memcpy cells filtered_buf n with
            | none => none
            | some cells1 => some ⟨stdin1, trace1 ++ out, buf1, Slot.array cells1, true⟩
          | _, _ => none

/-- The outcome of a call: it returned a pointer (`none` is `NULL`), or its
behaviour is undefined, or it is still in the loop after the given number of
iterations. -/
inductive Run where
  | returned (result : Option Slot) (trace : List Event) (stdin : List Char)
  | undefined
  | running (s : Loop)
  deriving DecidableEq, Repr

/-- The `do ... while ( !acquired_input )` of lines 137-167, for at most `fuel`
iterations. -/
def do_while (fp : FloatScan) (heap : Heap) (type_selector : Int) (bufsize : Nat)
    (message : Option String) (format : String) : Nat → Loop → Run
  | 0, s => Run.running s
  | fuel + 1, s =>
    match body fp heap type_selector bufsize message format s with
    | none => Run.undefined
    | some s1 =>
      if s1.acquired_input then Run.returned (some s1.result) s1.trace s1.stdin
      else do_while fp heap type_selector bufsize message format fuel s1

/-- The function `safe_input` (lines 75-195).  `fp`, `heap` and `stdin` are its
environment and `fuel` bounds the iterations of its loop.  The call
`fflush(stdin)` has no effect on `stdin`, which is what the stream delivers
after it. -/
def safe_input (fp : FloatScan) (heap : Heap) (stdin : List Char) (fuel : Nat)
    (type_selector : Int) (bufsize : Nat) (message : Option String) : Run :=
  if bufsize > 0 then
    let format := (select type_selector bufsize).1
    let result : Option Slot :=
      match (select type_selector bufsize).2 with
      | some request => if heap.result then some request.fresh else none
      | none => none
    match result with
    | some slot =>
      if heap.buf then
        do_while fp heap type_selector bufsize message format fuel
          ⟨stdin, [], malloc (bufsize + 1), slot, false⟩
      else
        Run.returned (some slot)
          [Event.printf "[safe_input()] ERROR: Memory allocation was unsuccessful\n"] stdin
    | none =>
      if format = STRING_EMPTY_PLACEHOLDER then
        Run.returned none
          [Event.printf "[safe_input()] ERROR: Memory allocation was unsuccessful\n"] stdin
      else
        Run.returned none
          [Event.printf "[safe_input()] ERROR: The selected type does not exist in the list of specified ones\n"]
          stdin
  else
    Run.returned none
      [Event.printf "[safe_input()] ERROR: The give buffer size can only be greater than zero\n"]
      stdin

/-- No floating-point text converts; used where no floating-point format is involved. -/
def no_float : FloatScan := fun _ _ => none

/-! ## Vocabulary of the statements -/

/-- The stream that delivers the given lines, each of them followed by a newline. -/
def stream_of : List (List Char) → List Char
  | [] => []
  | l :: ls => l ++ '\n' :: stream_of ls

/-- The number of calls of `fgets` in a trace. -/
def reads : List Event → Nat
  | [] => 0
  | Event.fgets _ :: t => reads t + 1
  | Event.printf _ :: t => reads t

/-- The number of calls of `printf` in a trace. -/
def prints : List Event → Nat
  | [] => 0
  | Event.fgets _ :: t => prints t
  | Event.printf _ :: t => prints t + 1

/-- The byte sequences that successive calls `fgets(buf, bufsize + 1, stdin)`
obtain from a stream, for at most `k` calls, when `bufsize + 1` is at least 2
and in the range of `int`. -/
def attempts (bufsize : Nat) : Nat → List Char → List (List Char)
  | 0, _ => []
  | _ + 1, [] => []
  | k + 1, c :: s =>
    (fgets_take bufsize (c :: s)).1 :: attempts bufsize k (fgets_take bufsize (c :: s)).2

/-- Whether the loop body sets `acquired_input` on the bytes `got` it has
read: always for the string selector, and when `sscanf` converts one value
from the string they make otherwise. -/
def accepted (fp : FloatScan) (type_selector : Int) (bufsize : Nat) (got : List Char) : Bool :=
  if type_selector = STRING then true
  else (sscanf fp (until_nul got) (select type_selector bufsize).1).isSome

/-- The state of the loop after `k` passes through its body, whatever the flag
`acquired_input` is; `none` when one of them has undefined behaviour. -/
def iterations (fp : FloatScan) (heap : Heap) (type_selector : Int) (bufsize : Nat)
    (message : Option String) (format : String) : Nat → Loop → Option Loop
  | 0, s => some s
  | k + 1, s =>
    match body fp heap type_selector bufsize message format s with
    | none => none
    | some s1 => iterations fp heap type_selector bufsize message format k s1

/-- The trace of one attempt for each of the given lines, read whole: the
prompt, when there is one, and the call of `fgets` that obtains the line. -/
def line_events (message : Option String) : List (List Char) → List Event
  | [] => []
  | l :: ls => prompt message ++ Event.fgets (some (l ++ ['\n'])) :: line_events message ls

/-- The state in which `safe_input` enters its loop. -/
def entry (stdin : List Char) (bufsize : Nat) (slot : Slot) : Loop :=
  ⟨stdin, [], malloc (bufsize + 1), slot, false⟩

theorem store_after (pre rest : Mem) (old v : Cell) :
    store (pre ++ old :: rest) pre.length v = some (pre ++ v :: rest) := by
  simp [store]

theorem cstr_prefix (t : List Char) (rest : Mem) :
    cstr (t.map Cell.chr ++ Cell.END_OF_STRING :: rest) = some t := by
  induction t with
  | nil => simp [cstr]
  | cons c t ih => simp [cstr, ih]

theorem cstr_terminated (t : List Char) : cstr (terminated t) = some t := by
  simpa [terminated] using cstr_prefix t []

/-! ## Lemmas on filter -/

theorem count_pass_eq (remove : Char) (s : List Char) (len : Int) :
    count_pass remove s len = len - (s.count remove : Int) := by
  induction s generalizing len with
  | nil => simp [count_pass]
  | cons c s ih =>
    by_cases h : c = remove
    · subst h
      simp [count_pass, ih]
      omega
    · have h1 : ¬ ((c == remove) = true) := by simpa using h
      simp [count_pass, ih, h, List.count_cons, h1]

theorem length_filter_ne (remove : Char) (s : List Char) :
    (s.filter (fun x => x != remove)).length + s.count remove = s.length := by
  induction s with
  | nil => simp
  | cons c s ih =>
    by_cases h : c = remove
    · subst h
      simp [List.filter_cons]
      omega
    · have h1 : ¬ ((c == remove) = true) := by simpa using h
      simp [List.filter_cons, h, List.count_cons, h1]
      omega

theorem copy_pass_eq (remove : Char) (s : List Char) (pre : Mem) (k : Nat)
    (h : (s.filter (fun x => x != remove)).length ≤ k) :
    copy_pass remove s pre.length (pre ++ List.replicate k Cell.unwritten)
      = some (pre.length + (s.filter (fun x => x != remove)).length,
          pre ++ (s.filter (fun x => x != remove)).map Cell.chr
            ++ List.replicate (k - (s.filter (fun x => x != remove)).length) Cell.unwritten) := by
  induction s generalizing pre k with
  | nil => simp [copy_pass]
  | cons c s ih =>
    by_cases hc : c = remove
    · subst hc
      simp only [copy_pass, ne_eq, not_true_eq_false, if_false]
      simpa [List.filter_cons] using ih pre k (by simpa [List.filter_cons] using h)
    · have hlen : (s.filter (fun x => x != remove)).length + 1 ≤ k := by
        simpa [List.filter_cons, hc] using h
      obtain ⟨k1, rfl⟩ : ∃ k1, k = k1 + 1 := ⟨k - 1, by omega⟩
      have hst : store (pre ++ List.replicate (k1 + 1) Cell.unwritten) pre.length (Cell.chr c)
          = some ((pre ++ [Cell.chr c]) ++ List.replicate k1 Cell.unwritten) := by
        simpa [List.replicate_succ] using
          store_after pre (List.replicate k1 Cell.unwritten) Cell.unwritten (Cell.chr c)
      have ih1 := ih (pre ++ [Cell.chr c]) k1 (by omega)
      simp only [copy_pass, ne_eq, hc, not_false_eq_true, if_true, hst]
      have hl : (pre ++ [Cell.chr c]).length = pre.length + 1 := by simp
      rw [hl] at ih1
      rw [ih1]
      simp [List.filter_cons, hc]
      omega

theorem filter_eq (int_max : Nat) (T : List Char) (c : Char) (hfit : T.length ≤ int_max) :
    filter int_max true (some T) c
      = some ⟨some (terminated (T.filter (fun x => x != c))), []⟩ := by
  have hcount := count_pass_eq c T (T.length : Int)
  have hlen := length_filter_ne c T
  have hL : count_pass c T (T.length : Int) = ((T.filter (fun x => x != c)).length : Int) := by
    rw [hcount]
    omega
  have hcopy := copy_pass_eq c T [] ((T.filter (fun x => x != c)).length + 1) (by omega)
  simp only [List.length_nil, List.nil_append, Nat.zero_add, Nat.add_sub_cancel_left] at hcopy
  have hst := store_after ((T.filter (fun x => x != c)).map Cell.chr) [] Cell.unwritten
    Cell.END_OF_STRING
  simp only [List.length_map] at hst
  unfold filter
  simp only [Nat.not_lt.mpr hfit, if_false, hL, if_true, malloc]
  have e1 : ((((T.filter (fun x => x != c)).length : Int) + 1).toNat)
      = (T.filter (fun x => x != c)).length + 1 := by omega
  rw [e1, hcopy]
  simp [hst, terminated]

theorem cstr_written (got : List Char) (rest : Mem) :
    cstr (got.map Cell.of_char ++ Cell.END_OF_STRING :: rest) = some (until_nul got) := by
  induction got with
  | nil => simp [cstr, until_nul]
  | cons c t ih =>
    by_cases h : c = NUL
    · simp [cstr, until_nul, Cell.of_char, h]
    · have h1 : (c != NUL) = true := by simpa using h
      simp only [until_nul] at ih
      simp [cstr, until_nul, Cell.of_char, h, ih, List.takeWhile_cons, h1]

theorem until_nul_self (t : List Char) (h : NUL ∉ t) : until_nul t = t := by
  unfold until_nul
  rw [List.takeWhile_eq_self_iff]
  intro a ha
  have : a ≠ NUL := fun e => h (e ▸ ha)
  simpa using this

theorem until_nul_length (t : List Char) : (until_nul t).length ≤ t.length := by
  unfold until_nul
  exact (List.takeWhile_sublist _).length_le

theorem until_nul_cons (c : Char) (t : List Char) (h : c ≠ NUL) :
    until_nul (c :: t) = c :: until_nul t := by
  have h1 : (c != NUL) = true := by simpa using h
  simp [until_nul, List.takeWhile_cons, h1]

theorem to_int_small (v : Nat) (h : v ≤ INT_MAX) : to_int v = (v : Int) := by
  unfold INT_MAX at h
  unfold to_int
  split <;> omega

/-! ## Lemmas on fgets and on the loop body -/

theorem fgets_take_length (n : Nat) (s : List Char) : (fgets_take n s).1.length ≤ n := by
  induction n generalizing s with
  | zero => simp [fgets_take]
  | succ n ih =>
    cases s with
    | nil => simp [fgets_take]
    | cons c s =>
      by_cases h : c = '\n'
      · simp [fgets_take, h]
      · simpa [fgets_take, h] using ih s

theorem fgets_take_append (n : Nat) (s : List Char) :
    (fgets_take n s).1 ++ (fgets_take n s).2 = s := by
  induction n generalizing s with
  | zero => simp [fgets_take]
  | succ n ih =>
    cases s with
    | nil => simp [fgets_take]
    | cons c s =>
      by_cases h : c = '\n'
      · simp [fgets_take, h]
      · simpa [fgets_take, h] using ih s

theorem fgets_take_line (n : Nat) (l rest : List Char) (hnl : '\n' ∉ l)
    (hfit : l.length + 1 ≤ n) :
    fgets_take n (l ++ '\n' :: rest) = (l ++ ['\n'], rest) := by
  induction l generalizing n with
  | nil =>
    obtain ⟨m, rfl⟩ : ∃ m, n = m + 1 := ⟨n - 1, by simp at hfit; omega⟩
    simp [fgets_take]
  | cons c l ih =>
    obtain ⟨m, rfl⟩ : ∃ m, n = m + 1 := ⟨n - 1, by simp at hfit; omega⟩
    have hc : c ≠ '\n' := by
      intro h
      exact hnl (by simp [h])
    have hl : '\n' ∉ l := by
      intro h
      exact hnl (by simp [h])
    have := ih m hl (by simp at hfit; omega)
    simp [fgets_take, hc, this]

theorem fgets_take_prefix (pre post : List Char) (hnl : '\n' ∉ pre) :
    fgets_take pre.length (pre ++ post) = (pre, post) := by
  induction pre with
  | nil => simp [fgets_take]
  | cons c l ih =>
    have hc : c ≠ '\n' := by
      intro h
      exact hnl (by simp [h])
    have hl : '\n' ∉ l := by
      intro h
      exact hnl (by simp [h])
    simp [fgets_take, hc, ih hl]

theorem memcpy_written (buf : Mem) (t : List Char) (h : t.length + 1 ≤ buf.length) :
    memcpy buf (t.map Cell.of_char ++ [Cell.END_OF_STRING]) (t.length + 1)
      = some (t.map Cell.of_char ++ Cell.END_OF_STRING :: buf.drop (t.length + 1)) := by
  have hlen : (t.map Cell.of_char ++ [Cell.END_OF_STRING]).length = t.length + 1 := by simp
  have htake : (t.map Cell.of_char ++ [Cell.END_OF_STRING]).take (t.length + 1)
      = t.map Cell.of_char ++ [Cell.END_OF_STRING] := by
    rw [← hlen]
    exact List.take_length _
  simp only [memcpy, h, hlen, le_refl, and_self, if_true, htake]
  simp

theorem fgets_nonpositive (buf : Mem) (n : Int) (stdin : List Char) (h : n ≤ 0) :
    fgets buf n stdin = some ⟨none, buf, stdin⟩ := by
  simp [fgets, h]

theorem fgets_one (rest : Mem) (old : Cell) (stdin : List Char) :
    fgets (old :: rest) 1 stdin = some ⟨some [], Cell.END_OF_STRING :: rest, stdin⟩ := by
  simp [fgets, store]

theorem fgets_eof (buf : Mem) (bufsize : Nat) (hb : 0 < bufsize) (hint : bufsize < INT_MAX) :
    fgets buf (to_int (bufsize + 1)) [] = some ⟨none, buf, []⟩ := by
  have hn := to_int_small (bufsize + 1) (by omega)
  have h1 : ¬ ((bufsize : Int) + 1 ≤ 0) := by omega
  have h2 : ¬ ((bufsize : Int) + 1 = 1) := by omega
  simp only [fgets, hn, Nat.cast_add, Nat.cast_one, h1, h2, if_false]

theorem fgets_read (buf : Mem) (bufsize : Nat) (c : Char) (s : List Char)
    (hb : 0 < bufsize) (hint : bufsize < INT_MAX) (hbuf : buf.length = bufsize + 1) :
    fgets buf (to_int (bufsize + 1)) (c :: s)
      = some ⟨some (fgets_take bufsize (c :: s)).1,
          (fgets_take bufsize (c :: s)).1.map Cell.of_char
            ++ Cell.END_OF_STRING :: buf.drop ((fgets_take bufsize (c :: s)).1.length + 1),
          (fgets_take bufsize (c :: s)).2⟩ := by
  have hn := to_int_small (bufsize + 1) (by omega)
  have h1 : ¬ ((bufsize : Int) + 1 ≤ 0) := by omega
  have h2 : ¬ ((bufsize : Int) + 1 = 1) := by omega
  have h3 : ((bufsize : Int) + 1 - 1).toNat = bufsize := by omega
  have hle := fgets_take_length bufsize (c :: s)
  have hm := memcpy_written buf (fgets_take bufsize (c :: s)).1 (by omega)
  simp only [fgets, hn, Nat.cast_add, Nat.cast_one, h1, h2, if_false, h3, hm]

theorem length_after_read (buf : Mem) (t : List Char) (h : t.length + 1 ≤ buf.length) :
    (t.map Cell.of_char ++ Cell.END_OF_STRING :: buf.drop (t.length + 1)).length
      = buf.length := by
  simp
  omega

theorem body_eof (fp : FloatScan) (heap : Heap) (type_selector : Int) (bufsize : Nat)
    (message : Option String) (format : String) (s : Loop)
    (hb : 0 < bufsize) (hint : bufsize < INT_MAX) (hin : s.stdin = []) :
    body fp heap type_selector bufsize message format s
      = some ⟨[], s.trace ++ prompt message ++ [Event.fgets none], s.buf, s.result,
          s.acquired_input⟩ := by
  have h := fgets_eof s.buf bufsize hb hint
  unfold body
  rw [hin, h]

theorem body_scan_none (fp : FloatScan) (heap : Heap) (type_selector : Int) (bufsize : Nat)
    (message : Option String) (format : String) (s : Loop) (c : Char) (rest : List Char)
    (hb : 0 < bufsize) (hint : bufsize < INT_MAX)
    (hsel : type_selector ≠ STRING) (hbuf : s.buf.length = bufsize + 1)
    (hin : s.stdin = c :: rest)
    (hscan : sscanf fp (until_nul (fgets_take bufsize (c :: rest)).1) format = none) :
    body fp heap type_selector bufsize message format s
      = some ⟨(fgets_take bufsize (c :: rest)).2,
          s.trace ++ prompt message ++ [Event.fgets (some (fgets_take bufsize (c :: rest)).1)],
          (fgets_take bufsize (c :: rest)).1.map Cell.of_char
            ++ Cell.END_OF_STRING
              :: s.buf.drop ((fgets_take bufsize (c :: rest)).1.length + 1),
          s.result, s.acquired_input⟩ := by
  have h := fgets_read s.buf bufsize c rest hb hint hbuf
  unfold body
  rw [hin, h]
  simp only [ne_eq, hsel, not_false_eq_true, if_true, cstr_written, hscan]

theorem body_scan_some (fp : FloatScan) (heap : Heap) (type_selector : Int) (bufsize : Nat)
    (message : Option String) (format : String) (s : Loop) (c : Char) (rest : List Char)
    (v : Value)
    (hb : 0 < bufsize) (hint : bufsize < INT_MAX)
    (hsel : type_selector ≠ STRING) (hbuf : s.buf.length = bufsize + 1)
    (hin : s.stdin = c :: rest)
    (hscan : sscanf fp (until_nul (fgets_take bufsize (c :: rest)).1) format = some v) :
    body fp heap type_selector bufsize message format s
      = some ⟨(fgets_take bufsize (c :: rest)).2,
          s.trace ++ prompt message ++ [Event.fgets (some (fgets_take bufsize (c :: rest)).1)],
          (fgets_take bufsize (c :: rest)).1.map Cell.of_char
            ++ Cell.END_OF_STRING
              :: s.buf.drop ((fgets_take bufsize (c :: rest)).1.length + 1),
          s.result.assign v, true⟩ := by
  have h := fgets_read s.buf bufsize c rest hb hint hbuf
  unfold body
  rw [hin, h]
  simp only [ne_eq, hsel, not_false_eq_true, if_true, cstr_written, hscan]

theorem body_string (fp : FloatScan) (heap : Heap) (bufsize : Nat)
    (message : Option String) (format : String) (s : Loop) (c : Char) (rest : List Char)
    (cells : Mem)
    (hb : 0 < bufsize) (hint : bufsize < INT_MAX)
    (hheap : heap.filtered = true) (hbuf : s.buf.length = bufsize + 1)
    (hin : s.stdin = c :: rest) (hres : s.result = Slot.array cells)
    (hcells : cells.length = bufsize + 1) :
    body fp heap STRING bufsize message format s
      = some ⟨(fgets_take bufsize (c :: rest)).2,
          s.trace ++ prompt message ++ [Event.fgets (some (fgets_take bufsize (c :: rest)).1)],
          (fgets_take bufsize (c :: rest)).1.map Cell.of_char
            ++ Cell.END_OF_STRING
              :: s.buf.drop ((fgets_take bufsize (c :: rest)).1.length + 1),
          Slot.array
            (((until_nul (fgets_take bufsize (c :: rest)).1).filter
                (fun x => x != '\n')).map Cell.chr
              ++ cells.drop ((until_nul (fgets_take bufsize (c :: rest)).1).filter
                  (fun x => x != '\n')).length),
          true⟩ := by
  have hle := fgets_take_length bufsize (c :: rest)
  have h := fgets_read s.buf bufsize c rest hb hint hbuf
  unfold body
  rw [hin, h]
  simp only [ne_eq, not_true_eq_false, if_false, hheap, NEWLINE_CHAR, hres, cstr_written]
  generalize (fgets_take bufsize (c :: rest)).1 = got at *
  generalize (fgets_take bufsize (c :: rest)).2 = left at *
  have hul := until_nul_length got
  generalize until_nul got = text at *
  have hfl : (text.filter (fun x => x != '\n')).length ≤ text.length :=
    List.length_filter_le _ _
  have hf := filter_eq INT_MAX text '\n' (by omega)
  have hsl : strlen (terminated (text.filter (fun x => x != '\n')))
      = some (text.filter (fun x => x != '\n')).length := by
    simp [strlen, cstr_terminated]
  have hmc : memcpy cells (terminated (text.filter (fun x => x != '\n')))
      (text.filter (fun x => x != '\n')).length
      = some ((text.filter (fun x => x != '\n')).map Cell.chr
          ++ cells.drop (text.filter (fun x => x != '\n')).length) := by
    have h1 : (text.filter (fun x => x != '\n')).length ≤ cells.length := by omega
    simp [memcpy, h1, terminated, List.take_append_eq_append_take]
  simp only [hf, hsl, hmc, List.append_nil]

/-! ## Theorems on filter -/

theorem select_default (type_selector : Int) (bufsize : Nat)
    (h : type_selector < 0 ∨ 9 < type_selector) :
    select type_selector bufsize = (STRING_EMPTY_PLACEHOLDER, none) := by
  have h0 : type_selector ≠ SHORT_INT := by unfold SHORT_INT; omega
  have h1 : type_selector ≠ U_SHORT_INT := by unfold U_SHORT_INT; omega
  have h2 : type_selector ≠ INT := by unfold INT; omega
  have h3 : type_selector ≠ U_INT := by unfold U_INT; omega
  have h4 : type_selector ≠ LONG_INT := by unfold LONG_INT; omega
  have h5 : type_selector ≠ U_LONG_INT := by unfold U_LONG_INT; omega
  have h6 : type_selector ≠ FLOAT := by unfold FLOAT; omega
  have h7 : type_selector ≠ DOUBLE := by unfold DOUBLE; omega
  have h8 : type_selector ≠ CHAR := by unfold CHAR; omega
  have h9 : type_selector ≠ STRING := by unfold STRING; omega
  simp [select, h0, h1, h2, h3, h4, h5, h6, h7, h8, h9]

theorem select_valid (type_selector : Int) (bufsize : Nat)
    (h : 0 ≤ type_selector ∧ type_selector ≤ 9) :
    ∃ request, (select type_selector bufsize).2 = some request
      ∧ (select type_selector bufsize).1 ≠ STRING_EMPTY_PLACEHOLDER
      ∧ (type_selector ≠ STRING → ∃ t, request = Request.object t)
      ∧ (type_selector = STRING → request = Request.array (bufsize + 1)) := by
  obtain ⟨hl, hu⟩ := h
  have hcases : type_selector = 0 ∨ type_selector = 1 ∨ type_selector = 2 ∨ type_selector = 3
      ∨ type_selector = 4 ∨ type_selector = 5 ∨ type_selector = 6 ∨ type_selector = 7
      ∨ type_selector = 8 ∨ type_selector = 9 := by omega
  rcases hcases with h | h | h | h | h | h | h | h | h | h <;> subst h <;>
    simp [select, SHORT_INT, U_SHORT_INT, INT, U_INT, LONG_INT, U_LONG_INT, FLOAT, DOUBLE,
      CHAR, STRING, STRING_EMPTY_PLACEHOLDER]

/-- C7: with `bufsize = 0`, for every selector, prompt, stream and allocation
outcome, `safe_input` returns `NULL`, prints the diagnostic about the buffer
size and nothing else (no prompt), calls `fgets` not once and leaves the stream
as it was; the loop is not entered, whatever the number of iterations allowed. -/
theorem zero_bufsize_returns_null (fp : FloatScan) (heap : Heap) (stdin : List Char)
    (fuel : Nat) (type_selector : Int) (message : Option String) :
    safe_input fp heap stdin fuel type_selector 0 message
      = Run.returned none
          [Event.printf
            "[safe_input()] ERROR: The give buffer size can only be greater than zero\n"]
          stdin
    ∧ reads [Event.printf
        "[safe_input()] ERROR: The give buffer size can only be greater than zero\n"] = 0
    ∧ prints [Event.printf
        "[safe_input()] ERROR: The give buffer size can only be greater than zero\n"] = 1 := by
  refine ⟨?_, rfl, rfl⟩
  simp [safe_input]

/-- C4 (what the code does): for a selector outside the ten enumerators and
`bufsize > 0`, `safe_input` returns `NULL` without reading, and the one
diagnostic it prints is the allocation-failure message, not the message about
a type that does not exist. -/
theorem unknown_selector_prints_allocation_failure (fp : FloatScan) (heap : Heap)
    (stdin : List Char) (fuel : Nat) (type_selector : Int) (bufsize : Nat)
    (message : Option String)
    (hsel : type_selector < 0 ∨ 9 < type_selector) (hb : 0 < bufsize) :
    safe_input fp heap stdin fuel type_selector bufsize message
      = Run.returned none
          [Event.printf "[safe_input()] ERROR: Memory allocation was unsuccessful\n"] stdin
    ∧ safe_input fp heap stdin fuel type_selector bufsize message
      ≠ Run.returned none
          [Event.printf
            "[safe_input()] ERROR: The selected type does not exist in the list of specified ones\n"]
          stdin := by
  have h : safe_input fp heap stdin fuel type_selector bufsize message
      = Run.returned none
          [Event.printf "[safe_input()] ERROR: Memory allocation was unsuccessful\n"] stdin := by
    simp [safe_input, hb, select_default type_selector bufsize hsel]
  refine ⟨h, ?_⟩
  rw [h]
  simp

/-- C4 at selector 10 with `bufsize = 10`: the allocation-failure message is
printed. -/
theorem unknown_selector_prints_allocation_failure_witness :
    ((10 : Int) < 0 ∨ (9 : Int) < 10) ∧ 0 < 10
    ∧ safe_input no_float Heap.ok ['4', '2', '\n'] 1 10 10 none
      = Run.returned none
          [Event.printf "[safe_input()] ERROR: Memory allocation was unsuccessful\n"]
          ['4', '2', '\n'] :=
  ⟨by decide, by decide,
    (unknown_selector_prints_allocation_failure no_float Heap.ok ['4', '2', '\n'] 1 10 10 none
      (by decide) (by decide)).1⟩

/-- C5 (what the code does): for a valid selector and `bufsize > 0`, a failed
allocation of the result makes `safe_input` return `NULL` without reading, but
a failed allocation of the working buffer makes it return the freshly
allocated, never written result, not `NULL`; in both cases nothing is read. -/
theorem failed_buffer_allocation_returns_the_slot (fp : FloatScan) (heap : Heap)
    (stdin : List Char) (fuel : Nat) (type_selector : Int) (bufsize : Nat)
    (message : Option String)
    (hsel : 0 ≤ type_selector ∧ type_selector ≤ 9) (hb : 0 < bufsize) :
    (heap.result = false →
      safe_input fp heap stdin fuel type_selector bufsize message
        = Run.returned none
            [Event.printf
              "[safe_input()] ERROR: The selected type does not exist in the list of specified ones\n"]
            stdin)
    ∧ (heap.result = true → heap.buf = false →
      ∃ request, (select type_selector bufsize).2 = some request
        ∧ safe_input fp heap stdin fuel type_selector bufsize message
          = Run.returned (some request.fresh)
              [Event.printf "[safe_input()] ERROR: Memory allocation was unsuccessful\n"]
              stdin) := by
  obtain ⟨request, hreq, hfmt, -, -⟩ := select_valid type_selector bufsize hsel
  constructor
  · intro hr
    simp [safe_input, hb, hreq, hr, hfmt]
  · intro hr hbuf
    exact ⟨request, hreq, by simp [safe_input, hb, hreq, hr, hbuf]⟩

/-- C5 at the selector `INT` with `bufsize = 10`, when the allocation of the
working buffer fails: the call returns the unwritten `int` object, not `NULL`. -/
theorem failed_buffer_allocation_returns_the_slot_witness :
    (0 ≤ INT ∧ INT ≤ 9) ∧ 0 < 10
    ∧ safe_input no_float ⟨true, false, true⟩ ['4', '2', '\n'] 1 INT 10 none
      = Run.returned (some (Slot.object CType.int none))
          [Event.printf "[safe_input()] ERROR: Memory allocation was unsuccessful\n"]
          ['4', '2', '\n'] := by
  refine ⟨by decide, by decide, ?_⟩
  obtain ⟨request, hreq, h⟩ :=
    (failed_buffer_allocation_returns_the_slot no_float ⟨true, false, true⟩ ['4', '2', '\n'] 1
      INT 10 none (by decide) (by decide)).2 rfl rfl
  have hr : request = Request.object CType.int := by
    have : (select INT 10).2 = some (Request.object CType.int) := by decide
    rw [this] at hreq
    exact (Option.some.inj hreq).symm
  rw [h, hr]
  rfl

/-! ## Lemmas on a size that does not fit the int of fgets -/

theorem body_no_read (fp : FloatScan) (heap : Heap) (type_selector : Int) (bufsize : Nat)
    (message : Option String) (format : String) (s : Loop)
    (hn : to_int (bufsize + 1) ≤ 0) :
    body fp heap type_selector bufsize message format s
      = some ⟨s.stdin, s.trace ++ prompt message ++ [Event.fgets none], s.buf, s.result,
          s.acquired_input⟩ := by
  have h := fgets_nonpositive s.buf (to_int (bufsize + 1)) s.stdin hn
  unfold body
  rw [h]

theorem reads_append (a b : List Event) : reads (a ++ b) = reads a + reads b := by
  induction a with
  | nil => simp [reads]
  | cons e t ih =>
    cases e with
    | printf text => simpa [reads] using ih
    | fgets got =>
      simp [reads, ih]
      omega

theorem prints_append (a b : List Event) : prints (a ++ b) = prints a + prints b := by
  induction a with
  | nil => simp [prints]
  | cons e t ih =>
    cases e with
    | fgets got => simpa [prints] using ih
    | printf text =>
      simp [prints, ih]
      omega

theorem reads_prompt (message : Option String) : reads (prompt message) = 0 := by
  cases message <;> rfl

theorem prints_prompt (message : Option String) :
    prints (prompt message) = if message.isSome then 1 else 0 := by
  cases message <;> rfl

theorem do_while_no_read (fp : FloatScan) (heap : Heap) (type_selector : Int) (bufsize : Nat)
    (message : Option String) (format : String) (hn : to_int (bufsize + 1) ≤ 0)
    (n : Nat) (s : Loop) (hacq : s.acquired_input = false) :
    ∃ s1, do_while fp heap type_selector bufsize message format n s = Run.running s1
      ∧ s1.stdin = s.stdin ∧ s1.acquired_input = false
      ∧ reads s1.trace = reads s.trace + n := by
  induction n generalizing s with
  | zero => exact ⟨s, rfl, rfl, hacq, by simp⟩
  | succ n ih =>
    have hbody := body_no_read fp heap type_selector bufsize message format s hn
    rw [hacq] at hbody
    obtain ⟨s1, hrun, hin, hacq1, hreads⟩ := ih
      ⟨s.stdin, s.trace ++ prompt message ++ [Event.fgets none], s.buf, s.result, false⟩ rfl
    refine ⟨s1, ?_, hin, hacq1, ?_⟩
    · simp only [do_while, hbody]
      simpa using hrun
    · rw [hreads]
      simp [reads_append, reads_prompt, reads]
      omega

theorem run_valid (fp : FloatScan) (heap : Heap) (stdin : List Char) (fuel : Nat)
    (type_selector : Int) (bufsize : Nat) (message : Option String)
    (hsel : 0 ≤ type_selector ∧ type_selector ≤ 9) (hb : 0 < bufsize)
    (hr : heap.result = true) (hbf : heap.buf = true) :
    ∃ request, (select type_selector bufsize).2 = some request
      ∧ (type_selector ≠ STRING → ∃ t, request = Request.object t)
      ∧ safe_input fp heap stdin fuel type_selector bufsize message
        = do_while fp heap type_selector bufsize message (select type_selector bufsize).1 fuel
            (entry stdin bufsize request.fresh) := by
  obtain ⟨request, hreq, -, hobj, -⟩ := select_valid type_selector bufsize hsel
  refine ⟨request, hreq, hobj, ?_⟩
  simp only [safe_input, hb, if_true, hreq, hr, hbf, entry]

theorem run_no_read (fp : FloatScan) (heap : Heap) (stdin : List Char) (n : Nat)
    (type_selector : Int) (bufsize : Nat) (message : Option String)
    (hsel : 0 ≤ type_selector ∧ type_selector ≤ 9) (hb : 0 < bufsize)
    (hr : heap.result = true) (hbf : heap.buf = true)
    (hn : to_int (bufsize + 1) ≤ 0) :
    ∃ s, safe_input fp heap stdin n type_selector bufsize message = Run.running s
      ∧ s.stdin = stdin ∧ s.acquired_input = false ∧ reads s.trace = n := by
  obtain ⟨request, -, -, hrun⟩ := run_valid fp heap stdin n type_selector bufsize message
    hsel hb hr hbf
  obtain ⟨s1, hdo, hin, hacq, hreads⟩ := do_while_no_read fp heap type_selector bufsize message
    (select type_selector bufsize).1 hn n (entry stdin bufsize request.fresh) rfl
  exact ⟨s1, hrun.trans hdo, hin, hacq, by simpa [entry, reads] using hreads⟩

theorem to_int_of_int_max_succ : to_int (2147483647 + 1) ≤ 0 := by
  decide

/-! ## Theorems on the string selector -/

theorem fgets_take_nonempty (n : Nat) (c : Char) (s : List Char) :
    (fgets_take (n + 1) (c :: s)).1 ≠ [] := by
  by_cases h : c = '\n' <;> simp [fgets_take, h]

theorem fgets_take_shape (n : Nat) (s : List Char) :
    ∃ t, '\n' ∉ t ∧ ((fgets_take n s).1 = t ∨ (fgets_take n s).1 = t ++ ['\n']) := by
  induction n generalizing s with
  | zero => exact ⟨[], by simp, Or.inl (by simp [fgets_take])⟩
  | succ n ih =>
    cases s with
    | nil => exact ⟨[], by simp, Or.inl (by simp [fgets_take])⟩
    | cons c s =>
      by_cases h : c = '\n'
      · exact ⟨[], by simp, Or.inr (by simp [fgets_take, h])⟩
      · obtain ⟨t, ht, hor⟩ := ih s
        refine ⟨c :: t, ?_, ?_⟩
        · simp only [List.mem_cons, not_or]
          exact ⟨fun e => h e.symm, ht⟩
        · rcases hor with hor | hor
          · exact Or.inl (by simp [fgets_take, h, hor])
          · exact Or.inr (by simp [fgets_take, h, hor])

theorem filter_newline_self (t : List Char) (h : '\n' ∉ t) :
    t.filter (fun x => x != '\n') = t := by
  rw [List.filter_eq_self]
  intro a ha
  have : a ≠ '\n' := fun e => h (e ▸ ha)
  simpa using this

theorem cstr_unterminated (t : List Char) (k : Nat) :
    cstr (t.map Cell.chr ++ List.replicate k Cell.unwritten) = none := by
  induction t with
  | nil => cases k <;> simp [cstr, List.replicate_succ]
  | cons c t ih => simp [cstr, ih]

theorem until_nul_no_nul (t : List Char) : NUL ∉ until_nul t := by
  intro h
  have := List.mem_takeWhile_imp h
  simp at this

theorem run_string (fp : FloatScan) (heap : Heap) (bufsize : Nat) (message : Option String)
    (c : Char) (rest : List Char) (fuel : Nat)
    (hb : 0 < bufsize) (hint : bufsize < INT_MAX) (hfuel : 0 < fuel)
    (hr : heap.result = true) (hbf : heap.buf = true) (hf : heap.filtered = true) :
    safe_input fp heap (c :: rest) fuel STRING bufsize message
      = Run.returned
          (some (Slot.array
            (((until_nul (fgets_take bufsize (c :: rest)).1).filter
                (fun x => x != '\n')).map Cell.chr
              ++ List.replicate
                  (bufsize + 1
                    - ((until_nul (fgets_take bufsize (c :: rest)).1).filter
                        (fun x => x != '\n')).length)
                  Cell.unwritten)))
          (prompt message ++ [Event.fgets (some (fgets_take bufsize (c :: rest)).1)])
          (fgets_take bufsize (c :: rest)).2 := by
  obtain ⟨f, rfl⟩ : ∃ f, fuel = f + 1 := ⟨fuel - 1, by omega⟩
  have hsel : select STRING bufsize = ("%s", some (Request.array (bufsize + 1))) := by
    simp [select, SHORT_INT, U_SHORT_INT, INT, U_INT, LONG_INT, U_LONG_INT, FLOAT, DOUBLE,
      CHAR, STRING]
  have hbody := body_string fp heap bufsize message "%s"
    ⟨c :: rest, [], malloc (bufsize + 1), Slot.array (malloc (bufsize + 1)), false⟩ c rest
    (malloc (bufsize + 1)) hb hint hf (by simp [malloc]) rfl rfl (by simp [malloc])
  simp only [safe_input, hb, if_true, hsel, hr, hbf, Request.fresh, do_while, hbody]
  simp [malloc]

/-- C3 (amended): for the string selector, `bufsize > 0` with `bufsize + 1`
in the range of `int`, successful allocations and a stream that delivers at
least one byte, `safe_input` returns after one successful call of `fgets`, the
only call it makes.  The bytes `got` of that call are at most `bufsize` bytes
from the front of the stream, and the result array holds, in its first cells,
the text `text` that is the string made by `got` (its bytes before the first
NUL byte) without its newline, so of length at most `bufsize`; when `got` has
no NUL byte, `text` is `got` without its newline.  The cells behind the text
are never written. -/
theorem string_returns_the_first_read (fp : FloatScan) (heap : Heap) (bufsize : Nat)
    (message : Option String) (c : Char) (rest : List Char) (fuel : Nat)
    (hb : 0 < bufsize) (hint : bufsize < INT_MAX) (hfuel : 0 < fuel)
    (hr : heap.result = true) (hbf : heap.buf = true) (hf : heap.filtered = true) :
    ∃ got left text,
      fgets_take bufsize (c :: rest) = (got, left)
      ∧ text = (until_nul got).filter (fun x => x != '\n')
      ∧ safe_input fp heap (c :: rest) fuel STRING bufsize message
          = Run.returned
              (some (Slot.array
                (text.map Cell.chr
                  ++ List.replicate (bufsize + 1 - text.length) Cell.unwritten)))
              (prompt message ++ [Event.fgets (some got)]) left
      ∧ reads (prompt message ++ [Event.fgets (some got)]) = 1
      ∧ got ≠ [] ∧ got.length ≤ bufsize ∧ got ++ left = c :: rest
      ∧ (NUL ∉ got → (got = text ∨ got = text ++ ['\n']))
      ∧ '\n' ∉ text
      ∧ NUL ∉ text
      ∧ text.length ≤ bufsize := by
  have hrun := run_string fp heap bufsize message c rest fuel hb hint hfuel hr hbf hf
  have hlen := fgets_take_length bufsize (c :: rest)
  have happ := fgets_take_append bufsize (c :: rest)
  obtain ⟨t, ht, hor⟩ := fgets_take_shape bufsize (c :: rest)
  have hne : (fgets_take bufsize (c :: rest)).1 ≠ [] := by
    obtain ⟨n, rfl⟩ : ∃ n, bufsize = n + 1 := ⟨bufsize - 1, by omega⟩
    exact fgets_take_nonempty n c rest
  have hul := until_nul_length (fgets_take bufsize (c :: rest)).1
  have hfl : ((until_nul (fgets_take bufsize (c :: rest)).1).filter
      (fun x => x != '\n')).length ≤ (until_nul (fgets_take bufsize (c :: rest)).1).length :=
    List.length_filter_le _ _
  refine ⟨(fgets_take bufsize (c :: rest)).1, (fgets_take bufsize (c :: rest)).2, _, rfl, rfl,
    hrun, ?_, hne, hlen, happ, ?_, ?_, ?_, by omega⟩
  · cases message <;> simp [prompt, reads]
  · intro hnul
    rw [until_nul_self _ hnul]
    rcases hor with hor | hor
    · left
      rw [hor, filter_newline_self t ht]
    · right
      rw [hor, List.filter_append, filter_newline_self t ht]
      simp
  · simp [List.mem_filter]
  · intro h
    exact until_nul_no_nul _ (List.mem_of_mem_filter h)

/-- C3 at `bufsize = 5` and the line "hello\n": the call returns after one read
of "hello", which it stores in the result. -/
theorem string_returns_the_first_read_witness :
    0 < 5 ∧ 5 < INT_MAX ∧ 0 < 1
    ∧ safe_input no_float Heap.ok ['h', 'e', 'l', 'l', 'o', '\n'] 1 STRING 5 none
        = Run.returned
            (some (Slot.array
              (['h', 'e', 'l', 'l', 'o'].map Cell.chr ++ [Cell.unwritten])))
            [Event.fgets (some ['h', 'e', 'l', 'l', 'o'])] ['\n'] := by
  refine ⟨by decide, by decide, by decide, ?_⟩
  obtain ⟨got, left, text, htake, htext, hrun, -⟩ :=
    string_returns_the_first_read no_float Heap.ok 5 none 'h' ['e', 'l', 'l', 'o', '\n'] 1
      (by decide) (by decide) (by decide) rfl rfl rfl
  have h5 : fgets_take 5 ['h', 'e', 'l', 'l', 'o', '\n']
      = (['h', 'e', 'l', 'l', 'o'], ['\n']) := by decide
  rw [h5] at htake
  obtain ⟨hg, hl⟩ := Prod.mk.inj htake
  subst hg
  subst hl
  have ht : text = ['h', 'e', 'l', 'l', 'o'] := by
    rw [htext]
    decide
  subst ht
  rw [hrun]
  rfl

/-- C3 as stated fails in three ways.  With `bufsize = 5` and the line
'a', NUL, 'b', newline, the call reads these four bytes and returns the text
"a" only, not the characters read without the line terminator.  With
`bufsize = 2147483647` the size `bufsize + 1` reaches `fgets` as a negative
`int`, every call of `fgets` returns `NULL` without reading, and after two
iterations the call is still in its loop with the stream "hello\n" untouched.
And when the allocation inside `filter` fails, `strlen` is given `NULL`: the
behaviour is undefined. -/
theorem string_read_with_nul_or_large_size_or_failed_filter :
    safe_input no_float Heap.ok ['a', NUL, 'b', '\n'] 1 STRING 5 none
      = Run.returned
          (some (Slot.array
            [Cell.chr 'a', Cell.unwritten, Cell.unwritten, Cell.unwritten, Cell.unwritten,
              Cell.unwritten]))
          [Event.fgets (some ['a', NUL, 'b', '\n'])] []
    ∧ (∃ s, safe_input no_float Heap.ok ['h', 'e', 'l', 'l', 'o', '\n'] 2 STRING 2147483647 none
          = Run.running s
        ∧ s.stdin = ['h', 'e', 'l', 'l', 'o', '\n'] ∧ s.acquired_input = false
        ∧ reads s.trace = 2)
    ∧ safe_input no_float ⟨true, true, false⟩ ['h', 'e', 'l', 'l', 'o', '\n'] 1 STRING 5 none
      = Run.undefined := by
  refine ⟨by decide, ?_, by decide⟩
  exact run_no_read no_float Heap.ok ['h', 'e', 'l', 'l', 'o', '\n'] 2 STRING 2147483647 none
    (by decide) (by decide) rfl rfl to_int_of_int_max_succ

/-- C6 (what the code does): for the string selector, `bufsize > 0` with
`bufsize + 1` in the range of `int`, the result array of `bufsize + 1` cells
holds the text of the line in its first cells, and the cell right behind the
text, at index `len(text)`, is never written: it does not hold the terminator,
and the array is not a terminated string. -/
theorem string_result_lacks_the_terminator (fp : FloatScan) (bufsize : Nat)
    (message : Option String) (c : Char) (rest : List Char) (fuel : Nat)
    (hb : 0 < bufsize) (hint : bufsize < INT_MAX) (hfuel : 0 < fuel) :
    ∃ cells trace left text,
      safe_input fp Heap.ok (c :: rest) fuel STRING bufsize message
          = Run.returned (some (Slot.array cells)) trace left
      ∧ text = (until_nul (fgets_take bufsize (c :: rest)).1).filter (fun x => x != '\n')
      ∧ cells.length = bufsize + 1
      ∧ cells.take text.length = text.map Cell.chr
      ∧ cells[text.length]? = some Cell.unwritten
      ∧ cells[text.length]? ≠ some Cell.END_OF_STRING
      ∧ cstr cells = none := by
  have hrun := run_string fp Heap.ok bufsize message c rest fuel hb hint hfuel rfl rfl rfl
  have hlen := fgets_take_length bufsize (c :: rest)
  have hul := until_nul_length (fgets_take bufsize (c :: rest)).1
  have hfl : ((until_nul (fgets_take bufsize (c :: rest)).1).filter
      (fun x => x != '\n')).length ≤ (until_nul (fgets_take bufsize (c :: rest)).1).length :=
    List.length_filter_le _ _
  generalize (until_nul (fgets_take bufsize (c :: rest)).1).filter (fun x => x != '\n')
    = text at *
  have hcell : (text.map Cell.chr
      ++ List.replicate (bufsize + 1 - text.length) Cell.unwritten)[text.length]?
      = some Cell.unwritten := by
    obtain ⟨k, hk⟩ : ∃ k, bufsize + 1 - text.length = k + 1 :=
      ⟨bufsize - text.length, by omega⟩
    rw [List.getElem?_append_right (by simp), hk]
    simp [List.replicate_succ]
  refine ⟨_, _, _, text, hrun, rfl, ?_, ?_, hcell, ?_, cstr_unterminated _ _⟩
  · simp
    omega
  · simp
  · rw [hcell]
    simp

/-- C6 at `bufsize = 5` and the line "hello\n": the result is the five
characters followed by an unwritten cell. -/
theorem string_result_lacks_the_terminator_witness :
    0 < 5 ∧ 5 < INT_MAX ∧ 0 < 1
    ∧ ∃ cells trace left,
      safe_input no_float Heap.ok ['h', 'e', 'l', 'l', 'o', '\n'] 1 STRING 5 none
          = Run.returned (some (Slot.array cells)) trace left
      ∧ cells[5]? = some Cell.unwritten
      ∧ cstr cells = none := by
  refine ⟨by decide, by decide, by decide, ?_⟩
  obtain ⟨cells, trace, left, text, hrun, htext, -, -, hcell, -, hstr⟩ :=
    string_result_lacks_the_terminator no_float 5 none 'h' ['e', 'l', 'l', 'o', '\n'] 1
      (by decide) (by decide) (by decide)
  have h5 : (until_nul (fgets_take 5 ['h', 'e', 'l', 'l', 'o', '\n']).1).filter
      (fun x => x != '\n') = ['h', 'e', 'l', 'l', 'o'] := by decide
  rw [h5] at htext
  subst htext
  exact ⟨cells, trace, left, hrun, hcell, hstr⟩

/-! ## Theorems on the retries -/

theorem body_reject (fp : FloatScan) (heap : Heap) (type_selector : Int) (bufsize : Nat)
    (message : Option String) (format : String) (s : Loop)
    (hb : 0 < bufsize) (hint : bufsize < INT_MAX)
    (hsel : type_selector ≠ STRING) (hbuf : s.buf.length = bufsize + 1)
    (hin : s.stdin ≠ [])
    (hscan : sscanf fp (until_nul (fgets_take bufsize s.stdin).1) format = none) :
    ∃ buf1, buf1.length = bufsize + 1
      ∧ body fp heap type_selector bufsize message format s
        = some ⟨(fgets_take bufsize s.stdin).2,
            s.trace ++ prompt message ++ [Event.fgets (some (fgets_take bufsize s.stdin).1)],
            buf1, s.result, s.acquired_input⟩ := by
  obtain ⟨c, rest, hcr⟩ : ∃ c rest, s.stdin = c :: rest := by
    cases h : s.stdin with
    | nil => exact absurd h hin
    | cons c rest => exact ⟨c, rest, rfl⟩
  rw [hcr] at hscan ⊢
  refine ⟨_, ?_, body_scan_none fp heap type_selector bufsize message format s c rest hb hint
    hsel hbuf hcr hscan⟩
  have := fgets_take_length bufsize (c :: rest)
  exact (length_after_read s.buf _ (by omega)).trans hbuf

theorem body_accept (fp : FloatScan) (heap : Heap) (type_selector : Int) (bufsize : Nat)
    (message : Option String) (format : String) (s : Loop) (v : Value)
    (hb : 0 < bufsize) (hint : bufsize < INT_MAX)
    (hsel : type_selector ≠ STRING) (hbuf : s.buf.length = bufsize + 1)
    (hin : s.stdin ≠ [])
    (hscan : sscanf fp (until_nul (fgets_take bufsize s.stdin).1) format = some v) :
    ∃ buf1, buf1.length = bufsize + 1
      ∧ body fp heap type_selector bufsize message format s
        = some ⟨(fgets_take bufsize s.stdin).2,
            s.trace ++ prompt message ++ [Event.fgets (some (fgets_take bufsize s.stdin).1)],
            buf1, s.result.assign v, true⟩ := by
  obtain ⟨c, rest, hcr⟩ : ∃ c rest, s.stdin = c :: rest := by
    cases h : s.stdin with
    | nil => exact absurd h hin
    | cons c rest => exact ⟨c, rest, rfl⟩
  rw [hcr] at hscan ⊢
  refine ⟨_, ?_, body_scan_some fp heap type_selector bufsize message format s c rest v hb hint
    hsel hbuf hcr hscan⟩
  have := fgets_take_length bufsize (c :: rest)
  exact (length_after_read s.buf _ (by omega)).trans hbuf

theorem stream_of_append (a b : List (List Char)) :
    stream_of (a ++ b) = stream_of a ++ stream_of b := by
  induction a with
  | nil => simp [stream_of]
  | cons l ls ih => simp [stream_of, ih]

theorem line_events_append (message : Option String) (a b : List (List Char)) :
    line_events message (a ++ b) = line_events message a ++ line_events message b := by
  induction a with
  | nil => simp [line_events]
  | cons l ls ih => simp [line_events, ih]

theorem reads_line_events (message : Option String) (ls : List (List Char)) :
    reads (line_events message ls) = ls.length := by
  induction ls with
  | nil => rfl
  | cons l ls ih => simp [line_events, reads_append, reads_prompt, reads, ih]

theorem prints_line_events (message : Option String) (ls : List (List Char)) :
    prints (line_events message ls) = if message.isSome then ls.length else 0 := by
  induction ls with
  | nil => simp [line_events, prints]
  | cons l ls ih =>
    cases message with
    | none => simpa [line_events, prompt, prints] using ih
    | some m =>
      simp [line_events, prompt, prints] at ih ⊢
      exact ih

theorem do_while_bad_lines (fp : FloatScan) (heap : Heap) (type_selector : Int) (bufsize : Nat)
    (message : Option String) (format : String)
    (hb : 0 < bufsize) (hint : bufsize < INT_MAX) (hsel : type_selector ≠ STRING)
    (bad : List (List Char)) (rest : List Char) (fuel : Nat)
    (hfit : ∀ l ∈ bad, '\n' ∉ l ∧ l.length + 1 ≤ bufsize)
    (hbad : ∀ l ∈ bad, sscanf fp (until_nul (l ++ ['\n'])) format = none)
    (s : Loop) (hbuf : s.buf.length = bufsize + 1) (hacq : s.acquired_input = false)
    (hin : s.stdin = stream_of bad ++ rest) :
    ∃ buf1, buf1.length = bufsize + 1
      ∧ do_while fp heap type_selector bufsize message format (bad.length + fuel) s
        = do_while fp heap type_selector bufsize message format fuel
            ⟨rest, s.trace ++ line_events message bad, buf1, s.result, false⟩ := by
  induction bad generalizing s with
  | nil =>
    refine ⟨s.buf, hbuf, ?_⟩
    obtain ⟨i, t, b, r, a⟩ := s
    simp only [stream_of, List.nil_append] at hin
    simp only at hacq
    subst hin
    subst hacq
    simp [line_events]
  | cons l ls ih =>
    have hl := hfit l (by simp)
    have htake : fgets_take bufsize s.stdin = (l ++ ['\n'], stream_of ls ++ rest) := by
      rw [hin]
      simpa [stream_of] using fgets_take_line bufsize l (stream_of ls ++ rest) hl.1 hl.2
    have hne : s.stdin ≠ [] := by
      rw [hin]
      simp [stream_of]
    obtain ⟨buf1, hbuf1, hbody⟩ := body_reject fp heap type_selector bufsize message format s
      hb hint hsel hbuf hne (by rw [htake]; exact hbad l (by simp))
    rw [htake, hacq] at hbody
    obtain ⟨buf2, hbuf2, hrec⟩ := ih (fun x hx => hfit x (by simp [hx]))
      (fun x hx => hbad x (by simp [hx]))
      ⟨stream_of ls ++ rest, s.trace ++ prompt message ++ [Event.fgets (some (l ++ ['\n']))],
        buf1, s.result, false⟩ hbuf1 rfl rfl
    refine ⟨buf2, hbuf2, ?_⟩
    have hfuel : (l :: ls).length + fuel = (ls.length + fuel) + 1 := by
      simp
      omega
    rw [hfuel]
    simp only [do_while, hbody]
    simp only [Bool.false_eq_true, if_false]
    rw [hrec]
    simp [line_events]

theorem run_int (fp : FloatScan) (heap : Heap) (bufsize : Nat) (message : Option String)
    (stdin : List Char) (fuel : Nat) (hb : 0 < bufsize)
    (hr : heap.result = true) (hbf : heap.buf = true) :
    safe_input fp heap stdin fuel INT bufsize message
      = do_while fp heap INT bufsize message "%d" fuel
          (entry stdin bufsize (Slot.object CType.int none)) := by
  have hsel : select INT bufsize = ("%d", some (Request.object CType.int)) := by
    simp [select, SHORT_INT, U_SHORT_INT, INT]
  simp only [safe_input, hb, if_true, hsel, hr, hbf, Request.fresh, entry]

theorem wrap_signed_range (half v : Int) (h : 0 < half) :
    -half ≤ wrap_signed half v ∧ wrap_signed half v < half := by
  unfold wrap_signed
  have h1 := Int.emod_nonneg (v + half) (show (2 * half) ≠ 0 by omega)
  have h2 := Int.emod_lt_of_pos (v + half) (show 0 < 2 * half by omega)
  constructor <;> omega

theorem sscanf_int_range (fp : FloatScan) (text : List Char) (n : Int)
    (h : sscanf fp text "%d" = some (Value.integer n)) :
    -2147483648 ≤ n ∧ n ≤ 2147483647 := by
  simp only [sscanf, String.reduceEq, if_false, if_true] at h
  cases hs : scan_integer text with
  | none => simp [hs] at h
  | some v =>
    simp only [hs, Option.map_some', Option.some.injEq, Value.integer.injEq] at h
    have := wrap_signed_range 2147483648 (strtol v) (by decide)
    omega

/-- C2 (amended): for the selector `INT`, `bufsize > 0` with `bufsize + 1` in the
range of `int`, successful allocations, and a stream that starts with `k + 1`
lines that fit in the buffer (length with the newline at most `bufsize`), the
first `k` of which do not scan as an integer while the next scans as `n`:
`safe_input` returns the `int` object holding `n`, a value of type `int`,
having made `k + 1` calls of `fgets`, one for each line, and displayed the
prompt `k + 1` times when there is one; what follows these lines stays in the
stream.  With at most `k` iterations allowed the call is still in its loop:
the malformed lines do not end it.  A line scans as the string it makes, that
is up to its first NUL byte if it has one. -/
theorem int_retries_until_a_line_scans (fp : FloatScan) (heap : Heap) (bufsize : Nat)
    (message : Option String) (bad : List (List Char)) (good : List Char) (n : Int)
    (rest : List Char) (fuel : Nat)
    (hb : 0 < bufsize) (hint : bufsize < INT_MAX)
    (hr : heap.result = true) (hbf : heap.buf = true)
    (hfit : ∀ l ∈ bad ++ [good], '\n' ∉ l ∧ l.length + 1 ≤ bufsize)
    (hbad : ∀ l ∈ bad, sscanf fp (until_nul (l ++ ['\n'])) "%d" = none)
    (hgood : sscanf fp (until_nul (good ++ ['\n'])) "%d" = some (Value.integer n))
    (hfuel : bad.length < fuel) :
    safe_input fp heap (stream_of (bad ++ [good]) ++ rest) fuel INT bufsize message
      = Run.returned (some (Slot.object CType.int (some (Value.integer n))))
          (line_events message (bad ++ [good])) rest
    ∧ (-2147483648 ≤ n ∧ n ≤ 2147483647)
    ∧ reads (line_events message (bad ++ [good])) = bad.length + 1
    ∧ prints (line_events message (bad ++ [good]))
        = (if message.isSome then bad.length + 1 else 0)
    ∧ ∀ k, k ≤ bad.length →
        ∃ s, safe_input fp heap (stream_of (bad ++ [good]) ++ rest) k INT bufsize message
            = Run.running s
          ∧ s.acquired_input = false ∧ reads s.trace = k := by
  have hSI : INT ≠ STRING := by decide
  refine ⟨?_, sscanf_int_range fp _ n hgood, ?_, ?_, ?_⟩
  · obtain ⟨f, rfl⟩ : ∃ f, fuel = bad.length + (f + 1) := ⟨fuel - bad.length - 1, by omega⟩
    rw [run_int fp heap bufsize message _ _ hb hr hbf]
    obtain ⟨buf1, hbuf1, hrun⟩ := do_while_bad_lines fp heap INT bufsize message "%d" hb hint
      hSI bad (stream_of [good] ++ rest) (f + 1)
      (fun l hl => hfit l (by simp [hl])) hbad
      (entry (stream_of (bad ++ [good]) ++ rest) bufsize (Slot.object CType.int none))
      (by simp [entry, malloc]) rfl (by simp [entry, stream_of_append])
    rw [hrun]
    have hg := hfit good (by simp)
    have htake : fgets_take bufsize (stream_of [good] ++ rest) = (good ++ ['\n'], rest) := by
      simpa [stream_of] using fgets_take_line bufsize good rest hg.1 hg.2
    obtain ⟨buf2, -, hbody⟩ := body_accept fp heap INT bufsize message "%d"
      ⟨stream_of [good] ++ rest, line_events message bad, buf1, Slot.object CType.int none,
        false⟩
      (Value.integer n) hb hint hSI hbuf1 (by simp [stream_of])
      (by rw [htake]; exact hgood)
    simp only [htake] at hbody
    simp only [do_while, entry, List.nil_append, hbody, if_true, Slot.assign]
    simp [line_events_append, line_events]
  · simp [reads_line_events]
  · simp [prints_line_events]
  · intro k hk
    rw [run_int fp heap bufsize message _ _ hb hr hbf]
    have hsplit : stream_of (bad ++ [good]) ++ rest
        = stream_of (bad.take k) ++ (stream_of (bad.drop k ++ [good]) ++ rest) := by
      rw [← List.append_assoc, ← stream_of_append, ← List.append_assoc, List.take_append_drop]
    obtain ⟨buf1, -, hrun⟩ := do_while_bad_lines fp heap INT bufsize message "%d" hb hint hSI
      (bad.take k) (stream_of (bad.drop k ++ [good]) ++ rest) 0
      (fun l hl => hfit l (by simp [List.mem_of_mem_take hl]))
      (fun l hl => hbad l (List.mem_of_mem_take hl))
      (entry (stream_of (bad ++ [good]) ++ rest) bufsize (Slot.object CType.int none))
      (by simp [entry, malloc]) rfl (by simp [entry, hsplit])
    have hlen : (bad.take k).length = k := by simp [hk]
    rw [Nat.add_zero, hlen] at hrun
    rw [hrun]
    refine ⟨_, rfl, rfl, ?_⟩
    simp [do_while, entry, reads_line_events, hk]

/-- C2 at `bufsize = 10`: the line "42\n" returns 42 after one read, and the
lines "abc\n", "7\n" return 7 after one retry (two reads). -/
theorem int_retries_until_a_line_scans_witness :
    (0 < 10 ∧ 10 < INT_MAX
      ∧ (∀ l ∈ ([] : List (List Char)) ++ [['4', '2']], '\n' ∉ l ∧ l.length + 1 ≤ 10)
      ∧ (∀ l ∈ ([] : List (List Char)), sscanf no_float (until_nul (l ++ ['\n'])) "%d" = none)
      ∧ sscanf no_float (until_nul (['4', '2'] ++ ['\n'])) "%d" = some (Value.integer 42)
      ∧ safe_input no_float Heap.ok ['4', '2', '\n'] 1 INT 10 none
        = Run.returned (some (Slot.object CType.int (some (Value.integer 42))))
            [Event.fgets (some ['4', '2', '\n'])] [])
    ∧ ((∀ l ∈ [['a', 'b', 'c']] ++ [['7']], '\n' ∉ l ∧ l.length + 1 ≤ 10)
      ∧ (∀ l ∈ [['a', 'b', 'c']], sscanf no_float (until_nul (l ++ ['\n'])) "%d" = none)
      ∧ sscanf no_float (until_nul (['7'] ++ ['\n'])) "%d" = some (Value.integer 7)
      ∧ safe_input no_float Heap.ok ['a', 'b', 'c', '\n', '7', '\n'] 2 INT 10 none
        = Run.returned (some (Slot.object CType.int (some (Value.integer 7))))
            [Event.fgets (some ['a', 'b', 'c', '\n']), Event.fgets (some ['7', '\n'])] []) :=
  ⟨⟨by decide, by decide, by decide, by decide, by decide,
      (int_retries_until_a_line_scans no_float Heap.ok 10 none [] ['4', '2'] 42 [] 1
        (by decide) (by decide) rfl rfl (by decide) (by decide) (by decide) (by decide)).1⟩,
    ⟨by decide, by decide, by decide,
      (int_retries_until_a_line_scans no_float Heap.ok 10 none [['a', 'b', 'c']] ['7'] 7 [] 2
        (by decide) (by decide) rfl rfl (by decide) (by decide) (by decide) (by decide)).1⟩⟩

/-- C2 as stated fails: with `INT`, `bufsize = 2147483647` and the fitting line
"42\n", the size `bufsize + 1` reaches `fgets` as a negative `int`, every call
of `fgets` returns `NULL` without reading, and after three iterations the call
is still in its loop with the line untouched instead of having returned 42
from its first read. -/
theorem int_with_a_size_beyond_int_never_reads :
    ∃ s, safe_input no_float Heap.ok ['4', '2', '\n'] 3 INT 2147483647 none = Run.running s
      ∧ s.stdin = ['4', '2', '\n'] ∧ s.acquired_input = false ∧ reads s.trace = 3 :=
  run_no_read no_float Heap.ok ['4', '2', '\n'] 3 INT 2147483647 none
    (by decide) (by decide) rfl rfl to_int_of_int_max_succ

/-! ## Theorems on lines longer than the buffer -/

/-- C8 (amended): for a non-string selector and `bufsize > 0` with
`bufsize + 1` in the range of `int`, a line longer than the buffer is not
detected.  When the stream starts with `bufsize` bytes `pre` that hold no
newline, the first attempt reads exactly `pre`, leaves what follows in the
stream and scans the string that `pre` makes: if it scans as `v`, the value
that `sscanf` stores in the object, the call returns `v` from this one attempt;
only if it does not scan is the attempt retried, on what follows in the
stream. -/
theorem long_line_is_scanned_by_prefix (fp : FloatScan) (type_selector : Int)
    (message : Option String) (pre post : List Char)
    (hsel : 0 ≤ type_selector ∧ type_selector ≤ 8) (hpre : pre ≠ [])
    (hint : pre.length < INT_MAX) (hnl : '\n' ∉ pre) :
    ∃ t, (select type_selector pre.length).2 = some (Request.object t)
      ∧ (∀ v fuel, 0 < fuel →
          sscanf fp (until_nul pre) (select type_selector pre.length).1 = some v →
          safe_input fp Heap.ok (pre ++ post) fuel type_selector pre.length message
            = Run.returned (some (Slot.object t (some v)))
                (prompt message ++ [Event.fgets (some pre)]) post)
      ∧ (sscanf fp (until_nul pre) (select type_selector pre.length).1 = none →
          ∃ buf1, safe_input fp Heap.ok (pre ++ post) 1 type_selector pre.length message
            = Run.running ⟨post, prompt message ++ [Event.fgets (some pre)], buf1,
                Slot.object t none, false⟩) := by
  have hS : type_selector ≠ STRING := by unfold STRING; omega
  have hb : 0 < pre.length := List.length_pos.mpr hpre
  have htake := fgets_take_prefix pre post hnl
  have hne : pre ++ post ≠ [] := by simp [hpre]
  obtain ⟨request, hreq, hobj, hrun⟩ := run_valid fp Heap.ok (pre ++ post) 1 type_selector
    pre.length message ⟨hsel.1, by omega⟩ hb rfl rfl
  obtain ⟨t, rfl⟩ := hobj hS
  refine ⟨t, hreq, ?_, ?_⟩
  · intro v fuel hfuel hscan
    obtain ⟨f, rfl⟩ : ∃ f, fuel = f + 1 := ⟨fuel - 1, by omega⟩
    obtain ⟨request1, hreq1, -, hrun1⟩ := run_valid fp Heap.ok (pre ++ post) (f + 1)
      type_selector pre.length message ⟨hsel.1, by omega⟩ hb rfl rfl
    rw [hreq] at hreq1
    obtain rfl := Option.some.inj hreq1
    obtain ⟨buf1, -, hbody⟩ := body_accept fp Heap.ok type_selector pre.length message
      (select type_selector pre.length).1
      (entry (pre ++ post) pre.length (Slot.object t none)) v hb hint hS
      (by simp [entry, malloc]) hne (by simpa [entry, htake] using hscan)
    simp only [entry, htake] at hbody
    rw [hrun1]
    simp only [Request.fresh, do_while, entry, hbody, if_true, Slot.assign]
    simp
  · intro hscan
    obtain ⟨buf1, -, hbody⟩ := body_reject fp Heap.ok type_selector pre.length message
      (select type_selector pre.length).1
      (entry (pre ++ post) pre.length (Slot.object t none)) hb hint hS
      (by simp [entry, malloc]) hne (by simpa [entry, htake] using hscan)
    simp only [entry, htake] at hbody
    refine ⟨buf1, ?_⟩
    rw [hrun]
    simp only [Request.fresh, do_while, entry, hbody]
    simp

/-- C8 at `INT`, `bufsize = 3` and the line "12345\n": the first attempt reads
"123" and the call returns 123, leaving "45\n" in the stream. -/
theorem long_line_is_scanned_by_prefix_witness :
    (0 ≤ INT ∧ INT ≤ 8) ∧ ['1', '2', '3'] ≠ [] ∧ ['1', '2', '3'].length < INT_MAX
    ∧ '\n' ∉ ['1', '2', '3']
    ∧ safe_input no_float Heap.ok (['1', '2', '3'] ++ ['4', '5', '\n']) 1 INT 3
        (some "number: ")
      = Run.returned (some (Slot.object CType.int (some (Value.integer 123))))
          [Event.printf "number: ", Event.fgets (some ['1', '2', '3'])] ['4', '5', '\n'] := by
  refine ⟨by decide, by decide, by decide, by decide, ?_⟩
  obtain ⟨t, hreq, hsome, -⟩ := long_line_is_scanned_by_prefix no_float INT (some "number: ")
    ['1', '2', '3'] ['4', '5', '\n'] (by decide) (by decide) (by decide) (by decide)
  have ht : t = CType.int := by
    have h : (select INT 3).2 = some (Request.object CType.int) := by decide
    have hreq1 : (select INT 3).2 = some (Request.object t) := hreq
    rw [h] at hreq1
    exact ((Request.object.inj (Option.some.inj hreq1))).symm
  subst ht
  exact hsome (Value.integer 123) 1 (by decide) (by decide)

/-- C8 as stated fails: with `INT`, `bufsize = 3` and the line "12345\n" the
attempt that reads the over-long line is accepted, and the call returns 123,
the value of the truncated prefix, after that single read. -/
theorem long_line_returns_truncated_value :
    safe_input no_float Heap.ok ['1', '2', '3', '4', '5', '\n'] 1 INT 3 none
      = Run.returned (some (Slot.object CType.int (some (Value.integer 123))))
          [Event.fgets (some ['1', '2', '3'])] ['4', '5', '\n']
    ∧ reads [Event.fgets (some ['1', '2', '3'])] = 1 := by
  decide

/-! ## Theorems on the loop that never ends -/

theorem fgets_take_left_length (n : Nat) (c : Char) (s : List Char) :
    (fgets_take (n + 1) (c :: s)).2.length ≤ s.length := by
  have h1 := congrArg List.length (fgets_take_append (n + 1) (c :: s))
  have h2 : (fgets_take (n + 1) (c :: s)).1.length ≠ 0 := by
    intro h
    exact fgets_take_nonempty n c s (List.length_eq_zero.mp h)
  simp only [List.length_append, List.length_cons] at h1
  omega

theorem attempts_fuel (n k1 k2 : Nat) (s : List Char) (h1 : s.length ≤ k1)
    (h2 : s.length ≤ k2) : attempts (n + 1) k1 s = attempts (n + 1) k2 s := by
  induction k1 generalizing k2 s with
  | zero =>
    have hs : s = [] := List.length_eq_zero.mp (by omega)
    subst hs
    cases k2 <;> simp [attempts]
  | succ k1 ih =>
    cases s with
    | nil => cases k2 <;> simp [attempts]
    | cons c t =>
      obtain ⟨m, rfl⟩ : ∃ m, k2 = m + 1 := ⟨k2 - 1, by simp at h2; omega⟩
      have hl := fgets_take_left_length n c t
      simp only [List.length_cons] at h1 h2
      simp only [attempts]
      rw [ih m _ (by omega) (by omega)]

theorem do_while_rejected (fp : FloatScan) (heap : Heap) (type_selector : Int) (bufsize : Nat)
    (message : Option String) (hb : 0 < bufsize) (hint : bufsize < INT_MAX)
    (n : Nat) (s : Loop)
    (hbuf : s.buf.length = bufsize + 1) (hacq : s.acquired_input = false)
    (hrej : ∀ t ∈ attempts bufsize s.stdin.length s.stdin,
      accepted fp type_selector bufsize t = false) :
    ∃ s1, do_while fp heap type_selector bufsize message (select type_selector bufsize).1 n s
        = Run.running s1
      ∧ s1.acquired_input = false
      ∧ reads s1.trace = reads s.trace + n
      ∧ prints s1.trace = prints s.trace + (if message.isSome then n else 0) := by
  obtain ⟨b, rfl⟩ : ∃ b, bufsize = b + 1 := ⟨bufsize - 1, by omega⟩
  induction n generalizing s with
  | zero => exact ⟨s, rfl, hacq, by simp, by simp⟩
  | succ n ih =>
    cases hin : s.stdin with
    | nil =>
      have hbody := body_eof fp heap type_selector (b + 1) message
        (select type_selector (b + 1)).1 s hb hint hin
      rw [hacq] at hbody
      obtain ⟨s1, hrun, hacq1, hreads, hprints⟩ := ih
        ⟨[], s.trace ++ prompt message ++ [Event.fgets none], s.buf, s.result, false⟩
        rfl hbuf (by simp [attempts])
      refine ⟨s1, ?_, hacq1, ?_, ?_⟩
      · simp only [do_while, hbody]
        simpa using hrun
      · rw [hreads]
        simp [reads_append, reads_prompt, reads]
        omega
      · rw [hprints]
        cases message <;> simp [prints_append, prompt, prints]
        omega
    | cons c rest =>
      rw [hin] at hrej
      simp only [List.length_cons, attempts, List.mem_cons, forall_eq_or_imp] at hrej
      obtain ⟨hfirst, hlater⟩ := hrej
      have hS : type_selector ≠ STRING := by
        intro h
        simp [accepted, h] at hfirst
      have hscan : sscanf fp (until_nul (fgets_take (b + 1) s.stdin).1)
          (select type_selector (b + 1)).1 = none := by
        rw [hin]
        simpa [accepted, hS] using hfirst
      obtain ⟨buf1, hbuf1, hbody⟩ := body_reject fp heap type_selector (b + 1) message
        (select type_selector (b + 1)).1 s hb hint hS hbuf (by simp [hin]) hscan
      rw [hin, hacq] at hbody
      have hl := fgets_take_left_length b c rest
      obtain ⟨s1, hrun, hacq1, hreads, hprints⟩ := ih
        ⟨(fgets_take (b + 1) (c :: rest)).2,
          s.trace ++ prompt message ++ [Event.fgets (some (fgets_take (b + 1) (c :: rest)).1)],
          buf1, s.result, false⟩ rfl hbuf1
        (by
          intro t ht
          apply hlater t
          rw [attempts_fuel b rest.length (fgets_take (b + 1) (c :: rest)).2.length _ hl
            (le_refl _)]
          exact ht)
      refine ⟨s1, ?_, hacq1, ?_, ?_⟩
      · simp only [do_while, hbody]
        simpa using hrun
      · rw [hreads]
        simp [reads_append, reads_prompt, reads]
        omega
      · rw [hprints]
        cases message <;> simp [prints_append, prompt, prints]
        omega

theorem do_while_returned (fp : FloatScan) (heap : Heap) (type_selector : Int) (bufsize : Nat)
    (message : Option String) (format : String) (fuel : Nat) (s : Loop)
    (result : Option Slot) (trace : List Event) (left : List Char)
    (hacq : s.acquired_input = false)
    (h : do_while fp heap type_selector bufsize message format fuel s
      = Run.returned result trace left) :
    ∃ k s0 s1, k < fuel
      ∧ iterations fp heap type_selector bufsize message format k s = some s0
      ∧ s0.acquired_input = false
      ∧ body fp heap type_selector bufsize message format s0 = some s1
      ∧ s1.acquired_input = true ∧ result = some s1.result ∧ trace = s1.trace
      ∧ left = s1.stdin := by
  induction fuel generalizing s with
  | zero => simp [do_while] at h
  | succ fuel ih =>
    simp only [do_while] at h
    cases hb : body fp heap type_selector bufsize message format s with
    | none => simp [hb] at h
    | some s1 =>
      rw [hb] at h
      by_cases ha : s1.acquired_input = true
      · simp only [ha, if_true] at h
        injection h with h1 h2 h3
        exact ⟨0, s, s1, by omega, rfl, hacq, hb, ha, h1.symm, h2.symm, h3.symm⟩
      · simp only [ha] at h
        have ha1 : s1.acquired_input = false := by simpa using ha
        obtain ⟨k, s0, s2, hk, hit, h0, hbody, h2, hr, ht, hl⟩ := ih s1 ha1 h
        refine ⟨k + 1, s0, s2, by omega, ?_, h0, hbody, h2, hr, ht, hl⟩
        simp only [iterations, hb, hit]

/-- C9 (amended): for a valid selector, `bufsize > 0` with `bufsize + 1` in the
range of `int`, and successful allocations of the result and of the buffer,
the loop is left only from a state that it has reached with `acquired_input`
still false, by the iteration that sets `acquired_input`.  If none of the
byte sequences that the calls of `fgets` obtain from the stream is accepted
(none is for an exhausted stream; for a non-string selector, none makes a
string that scans), then after every number `n` of iterations the call is
still in its loop with `acquired_input` false, having called `fgets` `n` times
and displayed the prompt, when there is one, `n` times: it never returns. -/
theorem loop_runs_while_nothing_is_accepted (fp : FloatScan) (heap : Heap)
    (type_selector : Int) (bufsize : Nat) (message : Option String) (stdin : List Char)
    (hsel : 0 ≤ type_selector ∧ type_selector ≤ 9) (hb : 0 < bufsize)
    (hint : bufsize < INT_MAX)
    (hr : heap.result = true) (hbf : heap.buf = true)
    (hrej : ∀ t ∈ attempts bufsize stdin.length stdin,
      accepted fp type_selector bufsize t = false) :
    (∀ n, ∃ s, safe_input fp heap stdin n type_selector bufsize message = Run.running s
        ∧ s.acquired_input = false
        ∧ reads s.trace = n
        ∧ prints s.trace = (if message.isSome then n else 0))
    ∧ (∀ n result trace left,
        safe_input fp heap stdin n type_selector bufsize message
          ≠ Run.returned result trace left)
    ∧ (∀ input fuel result trace left,
        safe_input fp heap input fuel type_selector bufsize message
          = Run.returned result trace left →
        ∃ request k s0 s1, (select type_selector bufsize).2 = some request
          ∧ k < fuel
          ∧ iterations fp heap type_selector bufsize message (select type_selector bufsize).1 k
              (entry input bufsize request.fresh) = some s0
          ∧ s0.acquired_input = false
          ∧ body fp heap type_selector bufsize message
              (select type_selector bufsize).1 s0 = some s1
          ∧ s1.acquired_input = true ∧ result = some s1.result ∧ trace = s1.trace
          ∧ left = s1.stdin) := by
  have hrunning : ∀ n, ∃ s,
      safe_input fp heap stdin n type_selector bufsize message = Run.running s
        ∧ s.acquired_input = false
        ∧ reads s.trace = n
        ∧ prints s.trace = (if message.isSome then n else 0) := by
    intro n
    obtain ⟨request, -, -, hrun⟩ := run_valid fp heap stdin n type_selector bufsize message
      hsel hb hr hbf
    obtain ⟨s1, hdo, hacq, hreads, hprints⟩ := do_while_rejected fp heap type_selector bufsize
      message hb hint n (entry stdin bufsize request.fresh) (by simp [entry, malloc]) rfl hrej
    refine ⟨s1, hrun.trans hdo, hacq, ?_, ?_⟩
    · simpa [entry, reads] using hreads
    · simpa [entry, prints] using hprints
  refine ⟨hrunning, ?_, ?_⟩
  · intro n result trace left h
    obtain ⟨s, hs, -⟩ := hrunning n
    rw [hs] at h
    exact Run.noConfusion h
  · intro input fuel result trace left h
    obtain ⟨request, hreq, -, hrun⟩ := run_valid fp heap input fuel type_selector bufsize
      message hsel hb hr hbf
    rw [hrun] at h
    obtain ⟨k, s0, s1, hk, hit, h0, hbody, h1, hres, htr, hl⟩ :=
      do_while_returned fp heap type_selector bufsize message _ fuel _ result trace left rfl h
    exact ⟨request, k, s0, s1, hreq, hk, hit, h0, hbody, h1, hres, htr, hl⟩

/-- C9 at `INT`, `bufsize = 10`, a prompt, and the stream "abc\n" whose only
line does not scan: after 3 iterations the call is still in its loop and has
displayed the prompt 3 times. -/
theorem loop_runs_while_nothing_is_accepted_witness :
    (0 ≤ INT ∧ INT ≤ 9) ∧ 0 < 10 ∧ 10 < INT_MAX
    ∧ (∀ t ∈ attempts 10 ['a', 'b', 'c', '\n'].length ['a', 'b', 'c', '\n'],
        accepted no_float INT 10 t = false)
    ∧ ∃ s, safe_input no_float Heap.ok ['a', 'b', 'c', '\n'] 3 INT 10 (some "> ")
          = Run.running s
        ∧ s.acquired_input = false ∧ reads s.trace = 3 ∧ prints s.trace = 3 :=
  ⟨by decide, by decide, by decide, by decide,
    (loop_runs_while_nothing_is_accepted no_float Heap.ok INT 10 (some "> ")
      ['a', 'b', 'c', '\n'] (by decide) (by decide) (by decide) rfl rfl (by decide)).1 3⟩

theorem body_string_one (fp : FloatScan) (heap : Heap) (bufsize : Nat)
    (message : Option String) (format : String) (s : Loop) (old : Cell) (more cells : Mem)
    (hn : to_int (bufsize + 1) = 1) (hf : heap.filtered = true)
    (hbuf : s.buf = old :: more) (hres : s.result = Slot.array cells) :
    body fp heap STRING bufsize message format s
      = some ⟨s.stdin, s.trace ++ prompt message ++ [Event.fgets (some [])],
          Cell.END_OF_STRING :: more, Slot.array cells, true⟩ := by
  have h := fgets_one more old s.stdin
  have hfil : filter INT_MAX true (some []) '\n' = some ⟨some [Cell.END_OF_STRING], []⟩ := by
    decide
  unfold body
  rw [hn, hbuf, h]
  simp only [ne_eq, not_true_eq_false, if_false, cstr, hf, NEWLINE_CHAR, hfil, hres, strlen,
    Option.map_some', List.length_nil, memcpy, Nat.zero_le, and_self, if_true, List.take_zero,
    List.drop_zero, List.nil_append, List.append_nil]

theorem run_string_one (fp : FloatScan) (heap : Heap) (stdin : List Char) (fuel : Nat)
    (bufsize : Nat) (message : Option String)
    (hb : 0 < bufsize) (hfuel : 0 < fuel) (hn : to_int (bufsize + 1) = 1)
    (hr : heap.result = true) (hbf : heap.buf = true) (hf : heap.filtered = true) :
    safe_input fp heap stdin fuel STRING bufsize message
      = Run.returned (some (Slot.array (malloc (bufsize + 1))))
          (prompt message ++ [Event.fgets (some [])]) stdin := by
  obtain ⟨f, rfl⟩ : ∃ f, fuel = f + 1 := ⟨fuel - 1, by omega⟩
  obtain ⟨request, hreq, -, hrun⟩ := run_valid fp heap stdin (f + 1) STRING bufsize message
    (by decide) hb hr hbf
  have hsel : select STRING bufsize = ("%s", some (Request.array (bufsize + 1))) := by
    simp [select, SHORT_INT, U_SHORT_INT, INT, U_INT, LONG_INT, U_LONG_INT, FLOAT, DOUBLE,
      CHAR, STRING]
  rw [hsel] at hreq hrun
  obtain rfl := Option.some.inj hreq
  have hbody := body_string_one fp heap bufsize message "%s"
    (entry stdin bufsize (Slot.array (malloc (bufsize + 1)))) Cell.unwritten
    (List.replicate bufsize Cell.unwritten) (malloc (bufsize + 1)) hn hf
    (by simp [entry, malloc, List.replicate_succ]) rfl
  simp only [entry, List.nil_append] at hbody
  rw [hrun]
  simp only [Request.fresh, do_while, entry, hbody, if_true]

theorem to_int_of_two_pow_32_succ : to_int (4294967296 + 1) = 1 := by
  decide

/-- C9 as stated fails: with `STRING`, `bufsize = 4294967296` and an exhausted
stream, the size `bufsize + 1` reaches `fgets` as the `int` 1, so the call of
`fgets` stores the terminator, reads nothing and succeeds, and `safe_input`
returns from its first iteration, with the result array never written,
although the stream never yields a line. -/
theorem exhausted_stream_returns_for_a_size_of_two_pow_32 :
    safe_input no_float Heap.ok [] 1 STRING 4294967296 none
      = Run.returned (some (Slot.array (malloc (4294967296 + 1))))
          (prompt none ++ [Event.fgets (some [])]) [] :=
  run_string_one no_float Heap.ok [] 1 4294967296 none (by decide) (by decide)
    to_int_of_two_pow_32_succ rfl rfl rfl

/-! ## Theorems on the working buffer -/

theorem map_of_char (t : List Char) (h : NUL ∉ t) : t.map Cell.of_char = t.map Cell.chr := by
  apply List.map_congr_left
  intro a ha
  have : a ≠ NUL := fun e => h (e ▸ ha)
  simp [Cell.of_char, this]

theorem body_after_read (fp : FloatScan) (heap : Heap) (type_selector : Int) (bufsize : Nat)
    (message : Option String) (format : String) (s : Loop) (c : Char) (rest : List Char)
    (hb : 0 < bufsize) (hint : bufsize < INT_MAX) (hin : s.stdin = c :: rest) :
    ∃ core : Option (List Event × Slot × Bool),
      (∀ old : Mem, old.length = bufsize + 1 →
        body fp heap type_selector bufsize message format { s with buf := old }
          = core.map (fun r =>
              ⟨(fgets_take bufsize (c :: rest)).2, r.1,
                (fgets_take bufsize (c :: rest)).1.map Cell.of_char
                  ++ Cell.END_OF_STRING
                    :: old.drop ((fgets_take bufsize (c :: rest)).1.length + 1),
                r.2.1, r.2.2⟩)) := by
  have key : ∀ old : Mem, old.length = bufsize + 1 →
      fgets old (to_int (bufsize + 1)) (c :: rest)
        = some ⟨some (fgets_take bufsize (c :: rest)).1,
            (fgets_take bufsize (c :: rest)).1.map Cell.of_char
              ++ Cell.END_OF_STRING
                :: old.drop ((fgets_take bufsize (c :: rest)).1.length + 1),
            (fgets_take bufsize (c :: rest)).2⟩ :=
    fun old h => fgets_read old bufsize c rest hb hint h
  have hcs : ∀ old : Mem,
      cstr ((fgets_take bufsize (c :: rest)).1.map Cell.of_char
        ++ Cell.END_OF_STRING :: old.drop ((fgets_take bufsize (c :: rest)).1.length + 1))
        = some (until_nul (fgets_take bufsize (c :: rest)).1) :=
    fun old => cstr_written _ _
  generalize (fgets_take bufsize (c :: rest)).1 = got at *
  generalize (fgets_take bufsize (c :: rest)).2 = left at *
  generalize until_nul got = text at *
  by_cases hS : type_selector = STRING
  · subst hS
    cases hf : filter INT_MAX heap.filtered (some text) NEWLINE_CHAR with
    | none =>
      refine ⟨none, fun old hold => ?_⟩
      simp [body, hin, key old hold, hcs old, hf]
    | some out =>
      obtain ⟨fb, out⟩ := out
      cases fb with
      | none =>
        refine ⟨none, fun old hold => ?_⟩
        simp [body, hin, key old hold, hcs old, hf]
      | some filtered_buf =>
        cases hn : strlen filtered_buf with
        | none =>
          refine ⟨none, fun old hold => ?_⟩
          simp [body, hin, key old hold, hcs old, hf, hn]
        | some n =>
          cases hres : s.result with
          | object t v =>
            refine ⟨none, fun old hold => ?_⟩
            simp [body, hin, key old hold, hcs old, hf, hn, hres]
          | array cells =>
            cases hm : memcpy cells filtered_buf n with
            | none =>
              refine ⟨none, fun old hold => ?_⟩
              simp [body, hin, key old hold, hcs old, hf, hn, hres, hm]
            | some cells1 =>
              refine ⟨some (s.trace ++ prompt message ++ [Event.fgets (some got)] ++ out,
                Slot.array cells1, true), fun old hold => ?_⟩
              simp [body, hin, key old hold, hcs old, hf, hn, hres, hm]
  · cases hscan : sscanf fp text format with
    | none =>
      refine ⟨some (s.trace ++ prompt message ++ [Event.fgets (some got)], s.result,
        s.acquired_input), fun old hold => ?_⟩
      simp [body, hin, key old hold, hcs old, hS, hscan]
    | some v =>
      refine ⟨some (s.trace ++ prompt message ++ [Event.fgets (some got)], s.result.assign v,
        true), fun old hold => ?_⟩
      simp [body, hin, key old hold, hcs old, hS, hscan]

/-- C10 (amended): for `bufsize > 0` with `bufsize + 1` in the range of `int`,
in every iteration whose read succeeds, whatever the `bufsize + 1` cells of
the working buffer hold from earlier attempts, `fgets` stores the bytes `got`
that it takes from the stream in this attempt and the terminator at the start
of the buffer and leaves the cells behind them as they were.  The string in
the buffer is then made of bytes of `got` only (it is `got` up to its first
NUL byte, and `got` itself when it has none), the buffer keeps its
`bufsize + 1` cells for the next iteration, and what the iteration does (trace,
result, `acquired_input`) is the same for every earlier content of the buffer:
for a non-string selector it is decided by scanning that string. -/
theorem scanned_text_is_the_text_just_read (fp : FloatScan) (heap : Heap)
    (type_selector : Int) (bufsize : Nat) (message : Option String) (format : String)
    (s : Loop) (c : Char) (rest : List Char)
    (hb : 0 < bufsize) (hint : bufsize < INT_MAX)
    (hbuf : s.buf.length = bufsize + 1) (hin : s.stdin = c :: rest) :
    ∃ got left buf1,
      fgets_take bufsize s.stdin = (got, left)
      ∧ fgets s.buf (to_int (bufsize + 1)) s.stdin = some ⟨some got, buf1, left⟩
      ∧ got ++ left = s.stdin
      ∧ cstr buf1 = some (until_nul got)
      ∧ (NUL ∉ got → cstr buf1 = some got)
      ∧ buf1 = got.map Cell.of_char ++ Cell.END_OF_STRING :: s.buf.drop (got.length + 1)
      ∧ (NUL ∉ got → buf1 = terminated got ++ s.buf.drop (got.length + 1))
      ∧ buf1.length = bufsize + 1
      ∧ (∀ s1, body fp heap type_selector bufsize message format s = some s1 → s1.buf = buf1)
      ∧ (∃ core : Option (List Event × Slot × Bool),
          ∀ old : Mem, old.length = bufsize + 1 →
            body fp heap type_selector bufsize message format { s with buf := old }
              = core.map (fun r =>
                  ⟨left, r.1,
                    got.map Cell.of_char ++ Cell.END_OF_STRING :: old.drop (got.length + 1),
                    r.2.1, r.2.2⟩))
      ∧ (type_selector ≠ STRING →
          body fp heap type_selector bufsize message format s
            = some ⟨left, s.trace ++ prompt message ++ [Event.fgets (some got)], buf1,
                (match sscanf fp (until_nul got) format with
                  | some v => s.result.assign v
                  | none => s.result),
                (sscanf fp (until_nul got) format).isSome || s.acquired_input⟩) := by
  obtain ⟨core, hcore⟩ := body_after_read fp heap type_selector bufsize message format s c rest
    hb hint hin
  have hlen := fgets_take_length bufsize (c :: rest)
  have hself : ({ s with buf := s.buf } : Loop) = s := by cases s; rfl
  have hs := hcore s.buf hbuf
  rw [hself] at hs
  refine ⟨(fgets_take bufsize (c :: rest)).1, (fgets_take bufsize (c :: rest)).2, _,
    by rw [hin], by rw [hin]; exact fgets_read s.buf bufsize c rest hb hint hbuf, ?_,
    cstr_written _ _, ?_, rfl, ?_, ?_, ?_, ⟨core, hcore⟩, ?_⟩
  · rw [hin]
    exact fgets_take_append bufsize (c :: rest)
  · intro hnul
    rw [cstr_written, until_nul_self _ hnul]
  · intro hnul
    rw [map_of_char _ hnul]
    simp [terminated]
  · exact (length_after_read s.buf _ (by omega)).trans hbuf
  · intro s1 h1
    rw [hs] at h1
    cases core with
    | none => simp at h1
    | some r =>
      simp only [Option.map_some'] at h1
      rw [← Option.some.inj h1]
  · intro hS
    cases hscan : sscanf fp (until_nul (fgets_take bufsize (c :: rest)).1) format with
    | none =>
      simpa using body_scan_none fp heap type_selector bufsize message format s c rest hb hint
        hS hbuf hin hscan
    | some v =>
      simpa using body_scan_some fp heap type_selector bufsize message format s c rest v hb
        hint hS hbuf hin hscan

/-- C10 at `bufsize = 10`, after the first attempt has left "abcdefgh\n" in the
buffer: the read of "7\n" makes "7\n" the string in the buffer. -/
theorem scanned_text_is_the_text_just_read_witness :
    0 < 10 ∧ 10 < INT_MAX
    ∧ (terminated ['a', 'b', 'c', 'd', 'e', 'f', 'g', 'h', '\n'] ++ [Cell.unwritten]).length
      = 10 + 1
    ∧ ∃ buf1,
      fgets (terminated ['a', 'b', 'c', 'd', 'e', 'f', 'g', 'h', '\n'] ++ [Cell.unwritten])
          (to_int (10 + 1)) ['7', '\n']
        = some ⟨some ['7', '\n'], buf1, []⟩
      ∧ cstr buf1 = some ['7', '\n'] := by
  refine ⟨by decide, by decide, by decide, ?_⟩
  obtain ⟨got, left, buf1, htake, hfgets, -, -, hstr, -⟩ :=
    scanned_text_is_the_text_just_read no_float Heap.ok INT 10 none "%d"
      ⟨['7', '\n'], [Event.fgets (some ['a', 'b', 'c', 'd', 'e', 'f', 'g', 'h', '\n'])],
        terminated ['a', 'b', 'c', 'd', 'e', 'f', 'g', 'h', '\n'] ++ [Cell.unwritten],
        Slot.object CType.int none, false⟩ '7' ['\n'] (by decide) (by decide) (by decide) rfl
  have h : fgets_take 10 ['7', '\n'] = (['7', '\n'], []) := by decide
  have htake1 : fgets_take 10 ['7', '\n'] = (got, left) := htake
  rw [h] at htake1
  obtain ⟨hg, hl⟩ := Prod.mk.inj htake1
  subst hg
  subst hl
  exact ⟨buf1, hfgets, hstr (by decide)⟩

/-- C10 as stated fails: with `INT`, `bufsize = 10` and the lines
"abcdefgh\n", "7\n", the second read, which succeeds and is accepted, does not
overwrite the whole working buffer: the cells at indices 3 to 9 still hold
"defgh\n" and the terminator, stored by the first, failed attempt. -/
theorem second_read_keeps_cells_of_the_first :
    (body no_float Heap.ok INT 10 none "%d"
        (entry ['a', 'b', 'c', 'd', 'e', 'f', 'g', 'h', '\n', '7', '\n'] 10
          (Slot.object CType.int none))).bind
      (body no_float Heap.ok INT 10 none "%d")
      = some ⟨[],
          [Event.fgets (some ['a', 'b', 'c', 'd', 'e', 'f', 'g', 'h', '\n']),
            Event.fgets (some ['7', '\n'])],
          [Cell.chr '7', Cell.chr '\n', Cell.END_OF_STRING, Cell.chr 'd', Cell.chr 'e',
            Cell.chr 'f', Cell.chr 'g', Cell.chr 'h', Cell.chr '\n', Cell.END_OF_STRING,
            Cell.unwritten],
          Slot.object CType.int (some (Value.integer 7)), true⟩ := by
  decide

/-! ## Theorems on the selection of the format and of the result -/

theorem select_table (bufsize : Nat) :
    select SHORT_INT bufsize = ("%hd", some (Request.object CType.short_int))
    ∧ select U_SHORT_INT bufsize = ("%hu", some (Request.object CType.unsigned_short_int))
    ∧ select INT bufsize = ("%d", some (Request.object CType.int))
    ∧ select U_INT bufsize = ("%u", some (Request.object CType.unsigned_int))
    ∧ select LONG_INT bufsize = ("%ld", some (Request.object CType.long_int))
    ∧ select U_LONG_INT bufsize = ("%lu", some (Request.object CType.unsigned_long_int))
    ∧ select FLOAT bufsize = ("%f", some (Request.object CType.float))
    ∧ select DOUBLE bufsize = ("%lf", some (Request.object CType.double))
    ∧ select CHAR bufsize = ("%c", some (Request.object CType.char))
    ∧ select STRING bufsize = ("%s", some (Request.array (bufsize + 1))) := by
  refine ⟨?_, ?_, ?_, ?_, ?_, ?_, ?_, ?_, ?_, ?_⟩ <;>
    simp [select, SHORT_INT, U_SHORT_INT, INT, U_INT, LONG_INT, U_LONG_INT, FLOAT, DOUBLE,
      CHAR, STRING]

theorem store_length (m m1 : Mem) (j : Nat) (v : Cell) (h : store m j v = some m1) :
    m1.length = m.length := by
  unfold store at h
  split_ifs at h
  rw [← Option.some.inj h]
  simp

theorem fgets_take_head (n : Nat) (c : Char) (s : List Char) :
    ∃ t, (fgets_take (n + 1) (c :: s)).1 = c :: t := by
  by_cases h : c = '\n'
  · exact ⟨[], by simp [fgets_take, h]⟩
  · exact ⟨(fgets_take n s).1, by simp [fgets_take, h]⟩

theorem sscanf_char (fp : FloatScan) (d : Char) (text : List Char) :
    sscanf fp (d :: text) "%c" = some (Value.character d) := by
  simp [sscanf]

theorem sscanf_char_empty (fp : FloatScan) : sscanf fp [] "%c" = none := by
  simp [sscanf]

theorem body_char (fp : FloatScan) (heap : Heap) (bufsize : Nat) (message : Option String)
    (s : Loop) (d : Char) (more : List Char) (hb : 0 < bufsize) (hint : bufsize < INT_MAX)
    (hd : d ≠ NUL)
    (hbuf : s.buf.length = bufsize + 1) (hin : s.stdin = d :: more) :
    ∃ buf1, buf1.length = bufsize + 1
      ∧ body fp heap CHAR bufsize message "%c" s
        = some ⟨(fgets_take bufsize (d :: more)).2,
            s.trace ++ prompt message ++ [Event.fgets (some (fgets_take bufsize (d :: more)).1)],
            buf1, s.result.assign (Value.character d), true⟩ := by
  obtain ⟨n, rfl⟩ : ∃ n, bufsize = n + 1 := ⟨bufsize - 1, by omega⟩
  obtain ⟨t, ht⟩ := fgets_take_head n d more
  have hscan : sscanf fp (until_nul (fgets_take (n + 1) s.stdin).1) "%c"
      = some (Value.character d) := by
    rw [hin, ht, until_nul_cons d t hd]
    exact sscanf_char fp d (until_nul t)
  have h := body_accept fp heap CHAR (n + 1) message "%c" s (Value.character d) hb hint
    (by decide) hbuf (by simp [hin]) hscan
  rw [hin] at h
  exact h

theorem body_char_nul (fp : FloatScan) (heap : Heap) (bufsize : Nat)
    (message : Option String) (s : Loop) (more : List Char)
    (hb : 0 < bufsize) (hint : bufsize < INT_MAX)
    (hbuf : s.buf.length = bufsize + 1) (hin : s.stdin = NUL :: more) :
    ∃ buf1, buf1.length = bufsize + 1
      ∧ body fp heap CHAR bufsize message "%c" s
        = some ⟨(fgets_take bufsize (NUL :: more)).2,
            s.trace ++ prompt message
              ++ [Event.fgets (some (fgets_take bufsize (NUL :: more)).1)],
            buf1, s.result, s.acquired_input⟩ := by
  obtain ⟨n, rfl⟩ : ∃ n, bufsize = n + 1 := ⟨bufsize - 1, by omega⟩
  obtain ⟨t, ht⟩ := fgets_take_head n NUL more
  have hscan : sscanf fp (until_nul (fgets_take (n + 1) s.stdin).1) "%c" = none := by
    rw [hin, ht]
    have : until_nul (NUL :: t) = [] := by simp [until_nul]
    rw [this]
    exact sscanf_char_empty fp
  have h := body_reject fp heap CHAR (n + 1) message "%c" s hb hint (by decide) hbuf
    (by simp [hin]) hscan
  rw [hin] at h
  exact h

/-- C13 (amended): for the selector `CHAR`, `bufsize > 0` with `bufsize + 1` in
the range of `int`, successful allocations and a stream whose first byte is
not the NUL byte, the first read succeeds and ends the loop: `safe_input`
returns, after this single call of `fgets`, the `char` object holding the
first character of what was read, which is the first character of the stream
whatever it is, a blank or the newline of an empty line included, because
`%c` converts the first character of any non-empty text without skipping white
space.  In any state of the loop an iteration that obtains bytes the first of
which is not NUL sets `acquired_input`, so no such line is retried; bytes that
start with the NUL byte make an empty string, which `%c` does not convert, and
the attempt is retried. -/
theorem char_returns_the_first_character (fp : FloatScan) (heap : Heap) (bufsize : Nat)
    (message : Option String) (c : Char) (rest : List Char) (fuel : Nat)
    (hb : 0 < bufsize) (hint : bufsize < INT_MAX) (hfuel : 0 < fuel) (hc : c ≠ NUL)
    (hr : heap.result = true) (hbf : heap.buf = true) :
    safe_input fp heap (c :: rest) fuel CHAR bufsize message
      = Run.returned (some (Slot.object CType.char (some (Value.character c))))
          (prompt message ++ [Event.fgets (some (fgets_take bufsize (c :: rest)).1)])
          (fgets_take bufsize (c :: rest)).2
    ∧ reads (prompt message ++ [Event.fgets (some (fgets_take bufsize (c :: rest)).1)]) = 1
    ∧ (fgets_take bufsize (c :: rest)).1.head? = some c
    ∧ (∀ (d : Char) (text : List Char), sscanf fp (d :: text) "%c" = some (Value.character d))
    ∧ (∀ (heap1 : Heap) (s : Loop) (d : Char) (more : List Char),
        s.buf.length = bufsize + 1 → s.stdin = d :: more → d ≠ NUL →
        ∃ s1, body fp heap1 CHAR bufsize message "%c" s = some s1
          ∧ s1.acquired_input = true
          ∧ s1.result = s.result.assign (Value.character d))
    ∧ (∀ (heap1 : Heap) (s : Loop) (more : List Char),
        s.buf.length = bufsize + 1 → s.stdin = NUL :: more →
        ∃ s1, body fp heap1 CHAR bufsize message "%c" s = some s1
          ∧ s1.acquired_input = s.acquired_input
          ∧ s1.result = s.result) := by
  refine ⟨?_, ?_, ?_, sscanf_char fp, ?_, ?_⟩
  · obtain ⟨f, rfl⟩ : ∃ f, fuel = f + 1 := ⟨fuel - 1, by omega⟩
    obtain ⟨request, hreq, -, hrun⟩ := run_valid fp heap (c :: rest) (f + 1) CHAR bufsize
      message (by decide) hb hr hbf
    have hsel := (select_table bufsize).2.2.2.2.2.2.2.2.1
    rw [hsel] at hreq hrun
    obtain rfl := Option.some.inj hreq
    obtain ⟨buf1, -, hbody⟩ := body_char fp heap bufsize message
      (entry (c :: rest) bufsize (Slot.object CType.char none)) c rest hb hint hc
      (by simp [entry, malloc]) rfl
    simp only [entry, List.nil_append] at hbody
    rw [hrun]
    simp only [Request.fresh, do_while, entry, hbody, if_true, Slot.assign]
  · simp [reads_append, reads_prompt, reads]
  · obtain ⟨n, rfl⟩ : ∃ n, bufsize = n + 1 := ⟨bufsize - 1, by omega⟩
    obtain ⟨t, ht⟩ := fgets_take_head n c rest
    rw [ht]
    rfl
  · intro heap1 s d more hbuf hin hd
    obtain ⟨buf1, -, hbody⟩ := body_char fp heap1 bufsize message s d more hb hint hd hbuf hin
    exact ⟨_, hbody, rfl, rfl⟩
  · intro heap1 s more hbuf hin
    obtain ⟨buf1, -, hbody⟩ := body_char_nul fp heap1 bufsize message s more hb hint hbuf hin
    exact ⟨_, hbody, rfl, rfl⟩

/-- C13 at `bufsize = 10`: the line " x\n" returns the blank, and the empty
line "\n" returns the newline, each after one read. -/
theorem char_returns_the_first_character_witness :
    0 < 10 ∧ 10 < INT_MAX ∧ 0 < 1 ∧ ' ' ≠ NUL ∧ '\n' ≠ NUL
    ∧ safe_input no_float Heap.ok [' ', 'x', '\n'] 1 CHAR 10 none
      = Run.returned (some (Slot.object CType.char (some (Value.character ' '))))
          [Event.fgets (some [' ', 'x', '\n'])] []
    ∧ safe_input no_float Heap.ok ['\n'] 1 CHAR 10 none
      = Run.returned (some (Slot.object CType.char (some (Value.character '\n'))))
          [Event.fgets (some ['\n'])] [] :=
  ⟨by decide, by decide, by decide, by decide, by decide,
    (char_returns_the_first_character no_float Heap.ok 10 none ' ' ['x', '\n'] 1
      (by decide) (by decide) (by decide) (by decide) rfl rfl).1,
    (char_returns_the_first_character no_float Heap.ok 10 none '\n' [] 1
      (by decide) (by decide) (by decide) (by decide) rfl rfl).1⟩

/-- C13 as stated fails in two ways.  With `bufsize = 10` and the line NUL,
'x', newline, the first read obtains the three bytes, but they make an empty
string, `%c` converts nothing and the line is retried: after two iterations
the call is still in its loop, with no character stored.  With
`bufsize = 2147483647` the size `bufsize + 1` reaches `fgets` as a negative
`int`, every call of `fgets` returns `NULL` without reading, and after two
iterations the call is still in its loop with the line "x\n" untouched. -/
theorem char_read_with_nul_or_large_size_is_retried :
    safe_input no_float Heap.ok [NUL, 'x', '\n'] 2 CHAR 10 none
      = Run.running ⟨[],
          [Event.fgets (some [NUL, 'x', '\n']), Event.fgets none],
          [Cell.END_OF_STRING, Cell.chr 'x', Cell.chr '\n', Cell.END_OF_STRING,
            Cell.unwritten, Cell.unwritten, Cell.unwritten, Cell.unwritten, Cell.unwritten,
            Cell.unwritten, Cell.unwritten],
          Slot.object CType.char none, false⟩
    ∧ ∃ s, safe_input no_float Heap.ok ['x', '\n'] 2 CHAR 2147483647 none = Run.running s
        ∧ s.stdin = ['x', '\n'] ∧ s.acquired_input = false ∧ reads s.trace = 2 := by
  refine ⟨by decide, ?_⟩
  exact run_no_read no_float Heap.ok ['x', '\n'] 2 CHAR 2147483647 none
    (by decide) (by decide) rfl rfl to_int_of_int_max_succ

end SafeInput
